import Mathlib

/-!
# Zen Static (`zs`): content build pipeline and rebuild walk

A shallow embedding of `src/main.go` (and its near-duplicate `src/sssg.go`,
whose `getVars`, `render`, `run`, `build*` and `buildAll` bodies are identical up
to the `ZSDIR` / `ZSIGNORE` constants).

Conventions of the embedding:

* a Go `string` is a `List Char` (`Str`) and offsets count characters (on
  UTF-8 text a substring search finds the same occurrences by character as by
  byte, and the slices taken at them are the same texts); `strings.Index`
  returns `none` for Go's `-1`;
* a loop is a function with a bound on its iterations: `render` gives its
  loop one more than the length of the text, and each iteration that goes on
  shortens the text;
* a Go `map[string]string` (`Vars`) is an association list read by first match;
* everything the program obtains from outside itself (configuration, file
  system, search path, child processes, third-party libraries) is a field of
  `World`;
* every observable action is recorded as an `Event`;
* a Go run-time panic is the `Res.panic` outcome.
-/

set_option autoImplicit false

namespace Zs

/-! ## Go strings -/

/-- Go `string`, as a list of characters. -/
abbrev Str := List Char

/-- Go `error` values, identified by their message. -/
abbrev GoError := Str

/-- Go `strings.HasPrefix(s, pre)`. -/
def hasPrefix (s pre : Str) : Bool := pre.isPrefixOf s

/-- Go `strings.Index(s, sep)`: offset of the first occurrence of `sep` in `s`;
`none` stands for Go's `-1`. -/
def index : Str → Str → Option Nat
  | [], sep => if sep.isPrefixOf [] then some 0 else none
  | c :: t, sep =>
    if sep.isPrefixOf (c :: t) then some 0
    else (index t sep).map (· + 1)

/-- Go slice expression `s[lo:hi]`; `none` when the bounds are out of range
(`lo > hi` or `hi > len(s)`), where Go panics. -/
def slice (s : Str) (lo hi : Nat) : Option Str :=
  if lo ≤ hi ∧ hi ≤ s.length then some ((s.take hi).drop lo) else none

/-- Go `unicode.IsSpace`. -/
def isSpace (c : Char) : Bool :=
  c = '\t' || c = '\n' || c.toNat = 0x0B || c.toNat = 0x0C || c = '\r' || c = ' '
    || c.toNat = 0x85 || c.toNat = 0xA0 || c.toNat = 0x1680
    || (0x2000 ≤ c.toNat && c.toNat ≤ 0x200A)
    || c.toNat = 0x2028 || c.toNat = 0x2029 || c.toNat = 0x202F
    || c.toNat = 0x205F || c.toNat = 0x3000

/-- Go `strings.TrimSpace`. -/
def trimSpace (s : Str) : Str :=
  ((s.dropWhile isSpace).reverse.dropWhile isSpace).reverse

/-- Worker of `fields`: `cur` is the field being read, reversed. -/
def fieldsAux : Str → Str → List Str
  | [], cur => if cur = [] then [] else [cur.reverse]
  | c :: t, cur =>
    if isSpace c then
      (if cur = [] then fieldsAux t [] else cur.reverse :: fieldsAux t [])
    else fieldsAux t (c :: cur)

/-- Go `strings.Fields`: the maximal runs of non-space characters. -/
def fields (s : Str) : List Str := fieldsAux s []

/-- Go `strings.Replace(s, old, new, -1)` for one-character `old` and `new`. -/
def replaceChar (s : Str) (old new : Char) : Str :=
  s.map (fun c => if c = old then new else c)

/-- Go `filepath.Ext`: the suffix starting at the last dot of the last path
element, scanning from the end; empty when there is none. -/
def extAux : Str → Str → Str
  | [], _ => []
  | c :: t, acc =>
    if c = '/' then []
    else if c = '.' then c :: acc
    else extAux t (c :: acc)

/-- Go `filepath.Ext(path)`. -/
def filepathExt (path : Str) : Str := extAux path.reverse []

/-- Go `filepath.Base(path)` (Unix separator, no volume name). -/
def filepathBase (path : Str) : Str :=
  if path = [] then ['.'] else
  let p := (path.reverse.dropWhile (· = '/'))
  let last := (p.takeWhile (· ≠ '/')).reverse
  if last = [] then ['/'] else last

/-! ## Variables -/

/-- Go `type Vars map[string]string`: an association list read by first match. -/
abbrev Vars := List (Str × Str)

/-- Go `v, ok := vars[k]`. -/
def Vars.get : Vars → Str → Option Str
  | [], _ => none
  | (k', x) :: r, k => if k' = k then some x else Vars.get r k

/-- Go `vars[k]` as a value: the empty string when the key is absent. -/
def Vars.getD (v : Vars) (k : Str) : Str := (Vars.get v k).getD []

/-- Go `vars[k] = x`: replaces the entry read by `get`, or adds one. -/
def Vars.set : Vars → Str → Str → Vars
  | [], k, x => [(k, x)]
  | (k', x') :: r, k, x =>
    if k' = k then (k, x) :: r else (k', x') :: Vars.set r k x

/-- Go `for k, x := range src { v[k] = x }`: every key of `src` is written into
`v` with the value `src` maps it to. -/
def Vars.overlay (v src : Vars) : Vars :=
  src.foldr (fun e acc => Vars.set acc e.1 e.2) v

/-- The entries a Go `range` over the map yields: one per key. -/
def Vars.entries : Vars → Vars
  | [] => []
  | (k, x) :: r => (k, x) :: (Vars.entries r).filter (fun e => e.1 ≠ k)

/-! ## The outside world, events and outcomes -/

/-- Go `io.Writer` sinks the program uses. -/
inductive Writer where
  | stdout
  | file (path : Str)
  deriving DecidableEq, Repr

/-- Result of running a child process (`exec.Cmd.Run`). -/
structure Proc where
  stdout : Str
  stderr : Str
  err : Option GoError

/-- Everything `zs` reads from outside itself. The file system is the one the
operation starts in; writes are recorded as events. -/
structure World where
  /-- Constant `ZSDIR` (".zs" in main.go, ".sss" in sssg.go). -/
  ZSDIR : Str
  /-- Constant `ZSIGNORE` (".zsignore" in main.go, ".ignore" in sssg.go). -/
  ZSIGNORE : Str
  /-- Value of `viper.GetString("opening-delim")`. -/
  openingDelim : Str
  /-- Value of `viper.GetString("closing-delim")`. -/
  closingDelim : Str
  /-- Value of `viper.GetBool("production")`. -/
  production : Bool
  /-- Go `os.ReadFile` / `ioutil.ReadFile`; `none` when it returns an error. -/
  readFile : Str → Option Str
  /-- Whether `exec.LookPath` finds the file (`err == nil`). -/
  lookPath : Str → Bool
  /-- Go `exec.Command(cmd, args...)` run with the given environment. -/
  command : Str → List Str → List Str → Proc
  /-- The error `fmt.Printf` returns: that of the write to standard output. -/
  printfErr : Option GoError
  /-- Go `strings.ToTitle`. -/
  toTitle : Str → Str
  /-- Go `strings.ToUpper`. -/
  toUpper : Str → Str
  /-- Go `filepath.Join` of two elements. -/
  filepathJoin : Str → Str → Str
  /-- Go `filepath.Dir`. -/
  filepathDir : Str → Str
  /-- Go `yaml.Unmarshal` of a header into a `Vars` map. -/
  yamlUnmarshal : Str → Except GoError Vars
  /-- Go `os.Environ()`. -/
  environ : List Str
  /-- Go `os.Args[0]`. -/
  arg0 : Str
  /-- Go `Parser.Convert`: the markdown converter. -/
  convert : Str → Except GoError Str
  /-- Go `template.New("").Delims("<%", "%>").Parse(body)`: its error. -/
  templateParse : Str → Option GoError
  /-- Go `tmpl.Execute(w, data)`: the text written, or the error. -/
  templateExecute : Str → Vars → Except GoError Str
  /-- Go `os.Create`: its error. -/
  create : Str → Option GoError
  /-- Go `os.Open`: its error. -/
  openFile : Str → Option GoError
  /-- Go `os.Stat(path)`: the permission bits, or the error. -/
  stat : Str → Except GoError Nat
  /-- Go `os.Chmod`: its error. -/
  chmod : Str → Nat → Option GoError
  /-- Go `io.Copy` from the opened file to the sink: its error. -/
  copyErr : Str → Option GoError

/-- Observable actions of the program, in the order they happen. -/
inductive Event where
  /-- Go `log.Printf(format, args...)` / `log.Print(msg)`. -/
  | log (format : Str) (args : List Str)
  /-- Go `fmt.Printf(format, args...)`. -/
  | printf (format : Str) (args : List Str)
  /-- Go `exec.LookPath(file)`. -/
  | lookPath (file : Str)
  /-- Go `c.Run()` of `exec.Command(cmd, args...)` with environment `env`. -/
  | exec (cmd : Str) (args : List Str) (env : List Str)
  /-- Go `os.Mkdir(path, 0755)`. -/
  | mkdir (path : Str)
  /-- Go `os.Create(path)`, when it succeeds. -/
  | create (path : Str)
  /-- Go `os.Chmod(path, mode)`. -/
  | chmod (path : Str) (mode : Nat)
  /-- Go `Parser.Convert(source, buf)`. -/
  | convert (source : Str)
  /-- Go `tmpl.Execute(w, data)` of the template parsed from `body`. -/
  | templateExecute (body : Str) (w : Writer) (data : Vars)
  /-- Go `io.Copy(w, r)` of the file at `path`. -/
  | copy (path : Str) (w : Writer)
  deriving DecidableEq, Repr

/-- How a Go function call ends. -/
inductive Res (α : Type) where
  /-- The call returned. -/
  | ret (a : α)
  /-- A run-time panic. -/
  | panic (msg : Str)
  /-- The model's loop bound was reached (shown unreachable for `render`). -/
  | outOfFuel
  deriving DecidableEq, Repr

/-- A Go call: the events it caused and how it ended. -/
structure Run (α : Type) where
  events : List Event
  res : Res α
  deriving DecidableEq, Repr

/-- Sequencing: the events of `m`, then those of `f` on the value `m` returned. -/
def Run.bind {α β : Type} (m : Run α) (f : α → Run β) : Run β :=
  match m.res with
  | .ret a => ⟨m.events ++ (f a).events, (f a).res⟩
  | .panic msg => ⟨m.events, .panic msg⟩
  | .outOfFuel => ⟨m.events, .outOfFuel⟩

instance : Monad Run where
  pure a := ⟨[], .ret a⟩
  bind := Run.bind

/-- Record one event. -/
def emit (e : Event) : Run Unit := ⟨[e], .ret ()⟩

/-- A Go run-time panic. -/
def goPanic {α : Type} (msg : Str) : Run α := ⟨[], .panic msg⟩

/-- Constant `PUBDIR`. -/
def PUBDIR : Str := ".pub".toList

/-! ## `run`, `getVars`, `render` -/

/-- Go `run(vars, cmd, args...)`. -/
def run (w : World) (vars : Vars) (cmd : Str) (args : List Str) :
    Run (Str × Option GoError) :=
  match w.readFile (w.filepathJoin w.ZSDIR (cmd ++ ".html".toList)) with
  | some b => pure (b, none)
  | none =>
    let env : List Str := ["ZS=".toList ++ w.arg0, "ZS_OUTDIR=".toList ++ PUBDIR]
    let env := env ++ w.environ
    let env := env ++ ((Vars.entries vars).filter (fun e => e.1 ≠ "content".toList)).map
      (fun e => "ZS_".toList ++ w.toUpper e.1 ++ "=".toList ++ e.2)
    let p := w.command cmd args env
    do
      emit (.exec cmd args env)
      match p.err with
      | some err => do
        emit (.log "error running command: %s".toList [cmd])
        emit (.log p.stderr [])
        pure ([], some err)
      | none => pure (p.stdout, none)

/-- The header/body delimiter of `getVars`. -/
def delim : Str := "\n---\n".toList

/-- Content-dependent default values of `getVars`, before globals. -/
def defaultVars (w : World) (path : Str) : Vars :=
  let v : Vars := []
  let title := replaceChar (replaceChar path '_' ' ') '-' ' '
  let v := Vars.set v "title".toList (w.toTitle title)
  let v := Vars.set v "description".toList []
  let v := Vars.set v "file".toList path
  let v := Vars.set v "url".toList
    (path.take (path.length - (filepathExt path).length) ++ ".html".toList)
  Vars.set v "output".toList (w.filepathJoin PUBDIR (Vars.getD v "url".toList))

/-- The variables of `getVars` before the header is looked at: the defaults,
overridden by the globals, with the layout added if none is specified. -/
def baseVars (w : World) (path : Str) (globals : Vars) : Vars :=
  -- Pick some default values for content-dependent variables
  let v := defaultVars w path
  -- Override default values with globals
  let v := Vars.overlay v globals
  -- Add layout if none is specified
  if (Vars.get v "layout".toList).isSome then v
  else Vars.set v "layout".toList "layout.html".toList

/-- Go `getVars(path, globals)`: the variables, the body and the error. -/
def getVars (w : World) (path : Str) (globals : Vars) :
    Run (Vars × Str × Option GoError) :=
  match w.readFile path with
  | none => do
    emit (.printf "error getting vars from %q: %w".toList [path])
    pure ([], [], some "358".toList)
  | some s =>
    let v := baseVars w path globals
    match index s delim with
    | none => pure (v, s, none)
    | some sep =>
      let header := s.take sep
      let body := s.drop (sep + delim.length)
      match w.yamlUnmarshal header with
      | .error err => do
        emit (.log "%e".toList [err])
        emit (.log "failed to parse header".toList [])
        pure (v, s, none)
      | .ok vars =>
        -- Override default values + globals with the ones defines in the file
        let v := Vars.overlay v vars
        let v := if hasPrefix (Vars.getD v "url".toList) "./".toList
                 then Vars.set v "url".toList ((Vars.getD v "url".toList).drop 2)
                 else v
        pure (v, body, none)

/-- The loop of `render`: `s` is the text still to scan, `out` the buffer.
Every iteration that continues removes a closing delimiter from `s`, so
`len(s) + 1` iterations are enough (`fuel`). -/
def renderLoop (w : World) (vars : Vars) : Nat → Str → Str → Run (Str × Option GoError)
  | 0, _, _ => ⟨[], .outOfFuel⟩
  | fuel + 1, s, out =>
    match index s w.openingDelim with
    | none => pure (out ++ s, none)
    | some fromIdx =>
      match index s w.closingDelim with
      | none => do
        emit (.printf "closing delimiter not found".toList [])
        pure ([], w.printfErr)
      | some toIdx =>
        let out := out ++ s.take fromIdx
        match slice s (fromIdx + w.openingDelim.length) toIdx with
        | none => goPanic "slice bounds out of range".toList
        | some cmd =>
          let s := s.drop (toIdx + w.closingDelim.length)
          match fields (trimSpace cmd) with
          | [] => goPanic "index out of range [0] with length 0".toList
          | m0 :: margs =>
            match (if margs = [] then Vars.get vars m0 else none) with
            | some v => renderLoop w vars fuel s (out ++ v)
            | none => do
              emit (.lookPath m0)
              if w.lookPath m0 then do
                let r ← run w vars m0 margs
                match r.2 with
                | none => renderLoop w vars fuel s (out ++ r.1)
                | some err => do
                  emit (.log "%e: error running command: %s".toList [err, m0])
                  renderLoop w vars fuel s out
              else
                if !w.production then
                  renderLoop w vars fuel s
                    (out ++ m0 ++ ": plugin or variable not found".toList)
                else renderLoop w vars fuel s out

/-- Go `render(s, vars)`. -/
def render (w : World) (s : Str) (vars : Vars) : Run (Str × Option GoError) :=
  renderLoop w vars (s.length + 1) s []

/-! ## `build` and its three strategies -/

/-- Go `strings.HasSuffix(s, suf)`. -/
def hasSuffix (s suf : Str) : Bool := suf.isSuffixOf s

/-- Go `strings.TrimSuffix(s, suf)`. -/
def trimSuffix (s suf : Str) : Str :=
  if hasSuffix s suf then s.take (s.length - suf.length) else s

/-- Go `renameExt(path, oldext, newext)`. -/
def renameExt (path oldext newext : Str) : Str :=
  let oldext := if oldext = [] then filepathExt path else oldext
  if oldext = [] ∨ hasSuffix path oldext then trimSuffix path oldext ++ newext
  else path

/-- Go `buildHTML(path, w, vars)`; `sink = none` is Go's `w == nil`. -/
def buildHTML (w : World) (path : Str) (sink : Option Writer) (vars : Vars) :
    Run (Option GoError) := do
  let r ← getVars w path vars
  let v := r.1
  match r.2.2 with
  | some err => pure (some err)
  | none =>
    let rr ← render w r.2.1 v
    match rr.2 with
    | some err => pure (some err)
    | none =>
      let body := rr.1
      match w.templateParse body with
      | some err => pure (some err)
      | none =>
        let exec (out : Writer) : Run (Option GoError) := do
          emit (.templateExecute body out vars)
          match w.templateExecute body vars with
          | .error err => pure (some err)
          | .ok _ => pure none
        match sink with
        | some out => exec out
        | none =>
          let f := w.filepathJoin PUBDIR path
          match w.create f with
          | some err => pure (some err)
          | none => do
            emit (.create f)
            exec (.file f)

/-- Go `buildMarkdown(path, w, vars)`. -/
def buildMarkdown (w : World) (path : Str) (sink : Option Writer) (vars : Vars) :
    Run (Option GoError) := do
  let r ← getVars w path vars
  let v := r.1
  match r.2.2 with
  | some err => pure (some err)
  | none =>
    let rr ← render w r.2.1 v
    match rr.2 with
    | some err => pure (some err)
    | none =>
      let source := rr.1
      let v := Vars.set v "source".toList source
      emit (.convert source)
      match w.convert source with
      | .error err => pure (some err)
      | .ok html =>
        let v := Vars.set v "content".toList html
        let layout := w.filepathJoin w.ZSDIR (Vars.getD v "layout".toList)
        match sink with
        | some out => buildHTML w layout (some out) v
        | none =>
          let f := w.filepathJoin PUBDIR (renameExt path [] ".html".toList)
          match w.create f with
          | some err => pure (some err)
          | none => do
            emit (.create f)
            buildHTML w layout (some (.file f)) v

/-- Go `buildRaw(path, w)`. -/
def buildRaw (w : World) (path : Str) (sink : Option Writer) : Run (Option GoError) :=
  match w.openFile path with
  | some err => pure (some err)
  | none =>
    let copy (out : Writer) : Run (Option GoError) := do
      emit (.copy path out)
      pure (w.copyErr path)
    match sink with
    | some out => copy out
    | none =>
      match w.stat path with
      | .error err => pure (some err)
      | .ok mode =>
        let fn := w.filepathJoin PUBDIR path
        match w.create fn with
        | some err => pure (some err)
        | none => do
          emit (.create fn)
          emit (.chmod fn mode)
          match w.chmod fn mode with
          | some err => pure (some err)
          | none => copy (.file fn)

/-- Go `build(path, w, vars)`. -/
def build (w : World) (path : Str) (sink : Option Writer) (vars : Vars) :
    Run (Option GoError) :=
  let ext := filepathExt path
  if ext = ".md".toList ∨ ext = ".mkd".toList then buildMarkdown w path sink vars
  else if ext = ".html".toList ∨ ext = ".xml".toList then buildHTML w path sink vars
  else buildRaw w path sink

/-! ## `buildAll`: the tree walk -/

/-- Go `os.FileInfo`, as far as `buildAll` reads it. Times are nanoseconds
since the epoch, so `time.Unix(0, 0)` is `0`. -/
structure FileInfo where
  isDir : Bool
  modTime : Int
  deriving DecidableEq, Repr

/-- One call `filepath.Walk` makes to its callback: `info` is `none` for Go's
nil `os.FileInfo` (an entry whose `Lstat` failed). -/
structure Entry where
  path : Str
  info : Option FileInfo
  err : Option GoError
  deriving DecidableEq, Repr

/-- The variables `lastModified` and `modified` of `buildAll`. -/
structure WalkState where
  lastModified : Int
  modified : Bool
  deriving DecidableEq, Repr

/-- The callback `buildAll` passes to `filepath.Walk`: the new state and the
error it returns. -/
def walkFn (w : World) (vars : Vars) (st : WalkState) (e : Entry) :
    Run (WalkState × Option GoError) :=
  -- rebuild if changes to .zs/ or .zsignore
  let support : Bool := filepathBase e.path = w.ZSIGNORE || w.filepathDir e.path = w.ZSDIR
  match (if support then e.info.map (fun i => decide (i.modTime > st.lastModified))
         else some false) with
  | none => goPanic "invalid memory address or nil pointer dereference".toList
  | some true =>
    -- reset lastModified to 0 so everything rebuilds
    pure ({ st with lastModified := 0 }, none)
  | some false =>
    -- inform user about fs walk errors, but continue iteration
    match e.err with
    | some err => do
      emit (.log "%e: error walking directory".toList [err])
      pure (st, none)
    | none =>
      match e.info with
      | none => goPanic "invalid memory address or nil pointer dereference".toList
      | some info =>
        if info.isDir then do
          emit (.mkdir (w.filepathJoin PUBDIR e.path))
          pure (st, none)
        else if info.modTime > st.lastModified then do
          let st ← (if !st.modified then do
              -- First file in this build cycle is about to be modified
              emit (.lookPath "prehook".toList)
              if w.lookPath "prehook".toList then do
                let r ← run w vars "prehook".toList []
                match r.2 with
                | some err => emit (.log "%e: error running prehook".toList [err])
                | none => pure ()
                pure { st with modified := true }
              else pure st
            else pure st)
          emit (.log "build: %s".toList [e.path])
          let err ← build w e.path none vars
          pure (st, err)
        else pure (st, none)

/-- Go `filepath.Walk(".", fn)` over the entries in the order it reports them.
The callback returns `nil` or a build error (never `SkipDir` / `SkipAll`), so
`Walk` goes on after `nil` and stops, returning the error, otherwise. -/
def walk (w : World) (vars : Vars) : WalkState → List Entry → Run (WalkState × Option GoError)
  | st, [] => pure (st, none)
  | st, e :: rest => do
    let r ← walkFn w vars st e
    match r.2 with
    | some err => pure (r.1, some err)
    | none => walk w vars r.1 rest

/-- One `case <-ticker.C:` of `buildAll`, up to the `if !watch` test. -/
def tick (w : World) (vars : Vars) (st : WalkState) (entries : List Entry) :
    Run (WalkState × Option GoError) := do
  emit (.mkdir PUBDIR)
  let r ← walk w vars st entries
  let st := r.1
  let st ← (if st.modified then do
      -- At least one file in this build cycle has been modified
      emit (.lookPath "posthook".toList)
      if w.lookPath "posthook".toList then do
        let p ← run w vars "posthook".toList []
        match p.2 with
        | some err => emit (.log "%e: error running posthook".toList [err])
        | none => pure ()
        pure { st with modified := false }
      else pure st
    else pure st)
  pure (st, r.2)

/-- What one tick of the ticker finds: the world, the tree as `filepath.Walk`
reports it, and `time.Now()` after the walk. -/
structure Tick where
  world : World
  entries : List Entry
  now : Int

/-- The `for { select ... }` loop of `buildAll` from state `st`, over the ticks
that fire before the context is done. -/
def buildAllLoop (vars : Vars) (watch : Bool) : WalkState → List Tick → Run (Option GoError)
  | _, [] => pure (some "context canceled".toList)
  | st, t :: rest => do
    let r ← tick t.world vars st t.entries
    if !watch then pure r.2
    else buildAllLoop vars watch { r.1 with lastModified := t.now } rest

/-- Go `buildAll(ctx, watch)`, with `vars` the value of `globals()`. -/
def buildAll (vars : Vars) (watch : Bool) (ticks : List Tick) : Run (Option GoError) :=
  buildAllLoop vars watch { lastModified := 0, modified := false } ticks

/-! ## A small concrete world -/

/-- Go `filepath.Join(a, b)` for clean relative operands: `a/b`, with a leading
`./` of `b` dropped, and `a` when `b` is `.`. -/
def joinClean (a b : Str) : Str :=
  if b = ['.'] then a
  else a ++ '/' :: (if hasPrefix b "./".toList then b.drop 2 else b)

/-- Go `filepath.Dir(path)` for a clean relative path: the text before the last
separator, `.` when there is none. -/
def dirClean (path : Str) : Str :=
  let d := ((path.reverse.dropWhile (· ≠ '/')).drop 1).reverse
  if d = [] then ['.'] else d

/-- A world with the default configuration of main.go (`{{`, `}}`, development
mode), an empty file system and search path, and a working standard output. -/
def world0 : World where
  ZSDIR := ".zs".toList
  ZSIGNORE := ".zsignore".toList
  openingDelim := "\x7b\x7b".toList
  closingDelim := "\x7d\x7d".toList
  production := false
  readFile := fun _ => none
  lookPath := fun _ => false
  command := fun _ _ _ => ⟨[], [], some "executable file not found".toList⟩
  printfErr := none
  toTitle := fun s => s.map Char.toUpper
  toUpper := fun s => s.map Char.toUpper
  filepathJoin := joinClean
  filepathDir := dirClean
  yamlUnmarshal := fun _ => .error "yaml: unmarshal errors".toList
  environ := []
  arg0 := "zs".toList
  convert := fun s => .ok s
  templateParse := fun _ => none
  templateExecute := fun body _ => .ok body
  create := fun _ => none
  openFile := fun _ => some "no such file or directory".toList
  stat := fun _ => .error "no such file or directory".toList
  chmod := fun _ _ => none
  copyErr := fun _ => none

/-- The world `world0` with one readable file. -/
def worldWithFile (path content : Str) : World :=
  { world0 with readFile := fun p => if p = path then some content else none }

/-- The world `worldWithFile path content` in which the YAML parser reads
`header` as the map `vars` (and fails on every other header). -/
def worldWithHeader (path content header : Str) (vars : Vars) : World :=
  { worldWithFile path content with
    yamlUnmarshal := fun h =>
      if h = header then .ok vars else .error "yaml: unmarshal errors".toList }

/-- The world `world0` with `d` as both opening and closing delimiter. -/
def worldWithDelim (d : Str) : World :=
  { world0 with openingDelim := d, closingDelim := d }

/-- The world `world0` in which every file other than markdown and templates
can be opened and copied, and none can be read as text. -/
def worldRawOnly : World :=
  { world0 with openFile := fun _ => none, stat := fun _ => .ok 420 }

/-- A regular file entry, reported without error. -/
def fileEntry (path : Str) (modTime : Int) : Entry :=
  { path := path, info := some { isDir := false, modTime := modTime }, err := none }

/-! ## Reference values for the variable layers -/

/-- The content-derived default of key `k` for the file at `path`: `title`,
`description`, `file`, `url` and `output`. -/
def defaultValue (w : World) (path k : Str) : Option Str :=
  let url := path.take (path.length - (filepathExt path).length) ++ ".html".toList
  if k = "title".toList then
    some (w.toTitle (replaceChar (replaceChar path '_' ' ') '-' ' '))
  else if k = "description".toList then some []
  else if k = "file".toList then some path
  else if k = "url".toList then some url
  else if k = "output".toList then some (w.filepathJoin PUBDIR url)
  else none

/-- The value of key `k` from the defaults overlaid with the globals, plus
`layout = "layout.html"` when the globals have no layout. -/
def globalOrDefault (w : World) (path : Str) (globals : Vars) (k : Str) : Option Str :=
  (Vars.get globals k).or
    (if k = "layout".toList then some "layout.html".toList else defaultValue w path k)

/-- Removal of one leading `./`. -/
def stripDotSlash (s : Str) : Str :=
  if hasPrefix s "./".toList then s.drop 2 else s

/-- The value of key `k` when the header parsed to the map `header`: the
header's value, else the global, else the default; for `url`, that value with
one leading `./` removed. -/
def resolvedValue (w : World) (path : Str) (globals header : Vars) (k : Str) :
    Option Str :=
  let layered := (Vars.get header k).or (globalOrDefault w path globals k)
  if k = "url".toList then layered.map stripDotSlash else layered

/-! ## The build command -/

/-- The `RunE` function of `BuildCmd` in main.go, with `globals` the value of
`globals()` and `ticks` what `buildAll` finds: both failures are reported with
`fmt.Printf`, and what is returned is the error of that print. -/
def BuildCmd (w : World) (globals : Vars) (args : List Str) (ticks : List Tick) :
    Run (Option GoError) :=
  match args with
  | [] => do
    let r ← buildAll globals false ticks
    match r with
    | some err => do
      emit (.printf "error building site: %w".toList [err])
      pure w.printfErr
    | none => pure none
  | file :: _ => do
    let r ← build w file (some .stdout) globals
    match r with
    | some _ => do
      emit (.printf "error building file %q".toList [file])
      pure w.printfErr
    | none => pure none

/-- The `RunE` function of `BuildCmd` in sssg.go: the failures are returned as
`fmt.Errorf` values. -/
def BuildCmdSssg (w : World) (globals : Vars) (args : List Str) (ticks : List Tick) :
    Run (Option GoError) :=
  match args with
  | [] => do
    let r ← buildAll globals false ticks
    match r with
    | some err => pure (some ("error building site: ".toList ++ err))
    | none => pure none
  | file :: _ => do
    let r ← build w file (some .stdout) globals
    match r with
    | some _ => pure (some ("error building file ".toList ++ file))
    | none => pure none

/-! ## Reading the event list -/

/-- The path of a `log.Printf("build: %s", path)` line, the line the walk
callback writes right before it calls `build(path, nil, vars)`. -/
def buildLog : Event → Option Str
  | .log format [path] => if format = "build: %s".toList then some path else none
  | _ => none

/-- The paths handed to `build` by the walk callback, in order. -/
def builds (events : List Event) : List Str := events.filterMap buildLog

/-- A run that writes no `build: %s` line. -/
def Quiet {α : Type} (r : Run α) : Prop := ∀ e ∈ r.events, buildLog e = none

/-- The `if !modified` block of the walk callback: before the first build, look
`prehook` up and, when it is found, run it and set `modified`. -/
def prehookStep (w : World) (vars : Vars) (st : WalkState) : Run WalkState :=
  if !st.modified then do
    -- First file in this build cycle is about to be modified
    emit (.lookPath "prehook".toList)
    if w.lookPath "prehook".toList then do
      let r ← run w vars "prehook".toList []
      match r.2 with
      | some err => emit (.log "%e: error running prehook".toList [err])
      | none => pure ()
      pure { st with modified := true }
    else pure st
  else pure st

/-- What the walk callback does for a file it builds: the `prehook` block, the
`build: %s` line, then `build(path, nil, vars)`, whose error it returns. -/
def buildEntry (w : World) (vars : Vars) (st : WalkState) (path : Str) :
    Run (WalkState × Option GoError) := do
  let st ← prehookStep w vars st
  emit (.log "build: %s".toList [path])
  let err ← build w path none vars
  pure (st, err)

/-- The print with which `render` gives up on a missing closing delimiter. -/
def abortEvent : Event := .printf "closing delimiter not found".toList []

/-- The environment `run` gives the child process. -/
def pluginEnv (w : World) (vars : Vars) : List Str :=
  ["ZS=".toList ++ w.arg0, "ZS_OUTDIR=".toList ++ PUBDIR] ++ w.environ
    ++ ((Vars.entries vars).filter (fun e => e.1 ≠ "content".toList)).map
      (fun e => "ZS_".toList ++ w.toUpper e.1 ++ "=".toList ++ e.2)

/-- The world `world0` in which the executable `name` is on the search path and
exits with status 1, printing `oops` on its standard error. -/
def worldWithFailingPlugin (name : Str) : World :=
  { world0 with
    lookPath := fun f => decide (f = name)
    command := fun _ _ _ => ⟨[], "oops".toList, some "exit status 1".toList⟩ }

/-- The world `world0` in production mode. -/
def worldProduction : World := { world0 with production := true }

/-- The header map `getVars` overlays for the file at `path`: what the YAML
parser reads from the text before the first delimiter, and the empty map when
the file is unreadable, has no delimiter or has a header that does not parse. -/
def headerOf (w : World) (path : Str) : Vars :=
  match w.readFile path with
  | none => []
  | some s =>
    match index s delim with
    | none => []
    | some sep =>
      match w.yamlUnmarshal (s.take sep) with
      | .error _ => []
      | .ok vars => vars

/-- The layout of the file at `path`: the one its header sets, else the one the
globals set, else the default name `layout.html`. -/
def layoutOf (w : World) (path : Str) (globals : Vars) : Str :=
  ((Vars.get (headerOf w path) "layout".toList).or
    (Vars.get globals "layout".toList)).getD "layout.html".toList

/-- Whether the walk callback takes `path` for the ignore file or for an entry
of the support directory. -/
def isSupport (w : World) (path : Str) : Bool :=
  filepathBase path = w.ZSIGNORE || w.filepathDir path = w.ZSDIR

/-- Whether the entry is a non-directory whose modification time is strictly
after `watermark`. -/
def isNewerFile (watermark : Int) (e : Entry) : Bool :=
  match e.info with
  | some info => !info.isDir && decide (info.modTime > watermark)
  | none => false

/-- Whether the entry is built in a walk whose watermark is the epoch: a file
modified after the epoch that is neither the ignore file nor in the support
directory. -/
def isBuiltAfterReset (w : World) (e : Entry) : Bool :=
  isNewerFile 0 e && !isSupport w e.path

/-- The world `worldRawOnly` whose search path holds exactly the executables
`names`, each of which succeeds and prints nothing. -/
def worldWithExecutables (names : List Str) : World :=
  { worldRawOnly with
    lookPath := fun f => decide (f ∈ names)
    command := fun _ _ _ => ⟨[], [], none⟩ }

/-! ## Lemmas on variables -/

theorem Vars.get_set (v : Vars) (k x k' : Str) :
    Vars.get (Vars.set v k x) k' = if k' = k then some x else Vars.get v k' := by
  induction v with
  | nil =>
    by_cases h : k = k'
    · simp [Vars.set, Vars.get, h]
    · have h' : ¬ k' = k := fun hh => h hh.symm
      simp [Vars.set, Vars.get, h, h']
  | cons e r ih =>
    obtain ⟨a, b⟩ := e
    by_cases hak : a = k
    · subst hak
      by_cases h : a = k'
      · simp [Vars.set, Vars.get, h]
      · have h' : ¬ k' = a := fun hh => h hh.symm
        simp [Vars.set, Vars.get, h, h']
    · by_cases h : a = k'
      · subst h
        simp [Vars.set, Vars.get, hak]
      · simp [Vars.set, Vars.get, hak, h, ih]

theorem Vars.get_overlay (v src : Vars) (k : Str) :
    Vars.get (Vars.overlay v src) k = (Vars.get src k).or (Vars.get v k) := by
  induction src with
  | nil => simp [Vars.overlay, Vars.get]
  | cons e r ih =>
    obtain ⟨a, b⟩ := e
    have hstep : Vars.overlay v ((a, b) :: r) = Vars.set (Vars.overlay v r) a b := rfl
    rw [hstep, Vars.get_set, ih]
    by_cases h : a = k
    · simp [Vars.get, h]
    · have h' : ¬ k = a := fun hh => h hh.symm
      simp [Vars.get, h, h']

theorem defaultVars_get (w : World) (path k : Str) :
    Vars.get (defaultVars w path) k = defaultValue w path k := by
  simp only [defaultVars, defaultValue, Vars.get_set, Vars.getD]
  split_ifs <;> simp_all [Vars.get]

theorem defaultValue_layout (w : World) (path : Str) :
    defaultValue w path "layout".toList = none := by
  simp [defaultValue]

theorem baseVars_get (w : World) (path : Str) (globals : Vars) (k : Str) :
    Vars.get (baseVars w path globals) k = globalOrDefault w path globals k := by
  unfold baseVars globalOrDefault
  simp only []
  split
  · rename_i h
    rw [Vars.get_overlay] at h ⊢
    rw [defaultVars_get] at h ⊢
    by_cases hk : k = "layout".toList
    · subst hk
      cases hg : Vars.get globals "layout".toList with
      | some x => simp
      | none =>
        rw [hg, defaultValue_layout] at h
        simp at h
    · simp only [hk, ↓reduceIte]
  · rename_i h
    rw [Vars.get_set, Vars.get_overlay]
    rw [Vars.get_overlay, defaultVars_get] at h
    by_cases hk : k = "layout".toList
    · subst hk
      cases hg : Vars.get globals "layout".toList with
      | some x => rw [hg] at h; simp at h
      | none => simp
    · simp only [hk, ↓reduceIte, defaultVars_get]

/-! ## `getVars` -/

/-- C4: for a readable file without the delimiter `\n---\n`, `getVars` returns no
error, logs nothing, returns the whole file content as body, and its variables
are exactly the content-derived defaults overlaid with the globals, plus
`layout = "layout.html"` when the globals have no layout. -/
theorem getVars_no_header (w : World) (path : Str) (globals : Vars) (s : Str)
    (hread : w.readFile path = some s) (hdelim : index s delim = none) :
    ∃ v, getVars w path globals = ⟨[], .ret (v, s, none)⟩ ∧
      ∀ k, Vars.get v k = globalOrDefault w path globals k := by
  refine ⟨baseVars w path globals, ?_, baseVars_get w path globals⟩
  simp only [getVars, hread, hdelim]
  rfl

theorem getVars_no_header_witness :
    (worldWithFile "a.md".toList "hello".toList).readFile "a.md".toList
        = some "hello".toList ∧
      index "hello".toList delim = none ∧
      ∃ v, getVars (worldWithFile "a.md".toList "hello".toList) "a.md".toList
            [("title".toList, "Site".toList)]
          = ⟨[], .ret (v, "hello".toList, none)⟩ ∧
        ∀ k, Vars.get v k = globalOrDefault (worldWithFile "a.md".toList "hello".toList)
          "a.md".toList [("title".toList, "Site".toList)] k :=
  ⟨by decide, by decide,
    getVars_no_header (worldWithFile "a.md".toList "hello".toList) "a.md".toList
      [("title".toList, "Site".toList)] "hello".toList (by decide) (by decide)⟩

/-- C3, as the code has it: for a readable file that contains the delimiter and
whose header fails to parse, `getVars` returns no error, logs the failure,
returns the defaults overlaid with the globals (no header key), and returns as
body the whole file text, header and delimiter included. -/
theorem getVars_bad_header (w : World) (path : Str) (globals : Vars) (s : Str)
    (sep : Nat) (err : GoError)
    (hread : w.readFile path = some s) (hdelim : index s delim = some sep)
    (hyaml : w.yamlUnmarshal (s.take sep) = .error err) :
    ∃ v, getVars w path globals
        = ⟨[.log "%e".toList [err], .log "failed to parse header".toList []],
            .ret (v, s, none)⟩ ∧
      ∀ k, Vars.get v k = globalOrDefault w path globals k := by
  refine ⟨baseVars w path globals, ?_, baseVars_get w path globals⟩
  simp only [getVars, hread, hdelim, hyaml]
  rfl

theorem getVars_bad_header_witness :
    (worldWithFile "a.md".toList "x\n---\nbody".toList).readFile "a.md".toList
        = some "x\n---\nbody".toList ∧
      index "x\n---\nbody".toList delim = some 1 ∧
      ∃ v, getVars (worldWithFile "a.md".toList "x\n---\nbody".toList) "a.md".toList []
          = ⟨[.log "%e".toList ["yaml: unmarshal errors".toList],
              .log "failed to parse header".toList []],
              .ret (v, "x\n---\nbody".toList, none)⟩ ∧
        ∀ k, Vars.get v k = globalOrDefault
          (worldWithFile "a.md".toList "x\n---\nbody".toList) "a.md".toList [] k :=
  ⟨by decide, by decide,
    getVars_bad_header (worldWithFile "a.md".toList "x\n---\nbody".toList) "a.md".toList
      [] "x\n---\nbody".toList 1 "yaml: unmarshal errors".toList
      (by decide) (by decide) (by rfl)⟩

/-- C3 as stated fails: the file `x\n---\nbody` has the delimiter at offset 1 and
a header the parser rejects; `getVars` returns the whole text as body, not the
text `body` after the delimiter. -/
theorem getVars_bad_header_body_not_post_delimiter :
    index "x\n---\nbody".toList delim = some 1 ∧
      ("x\n---\nbody".toList).drop (1 + delim.length) = "body".toList ∧
      (∃ v, (getVars (worldWithFile "a.md".toList "x\n---\nbody".toList)
          "a.md".toList []).res = .ret (v, "x\n---\nbody".toList, none)) ∧
      ¬ ∃ v e, (getVars (worldWithFile "a.md".toList "x\n---\nbody".toList)
          "a.md".toList []).res = .ret (v, "body".toList, e) := by
  refine ⟨by decide, by decide, ⟨baseVars world0 "a.md".toList [], by rfl⟩, ?_⟩
  rintro ⟨v, e, h⟩
  have h2 : (getVars (worldWithFile "a.md".toList "x\n---\nbody".toList)
      "a.md".toList []).res
      = .ret (baseVars world0 "a.md".toList [], "x\n---\nbody".toList, none) := by rfl
  rw [h2] at h
  injection h with h
  have h3 : "x\n---\nbody".toList = "body".toList := congrArg (fun t => t.2.1) h
  exact absurd h3 (by decide)

theorem get_stripUrl (v : Vars) (key k : Str) :
    Vars.get (if hasPrefix (Vars.getD v key) "./".toList
        then Vars.set v key ((Vars.getD v key).drop 2) else v) k
      = if k = key then (Vars.get v key).map stripDotSlash else Vars.get v k := by
  by_cases hk : k = key
  · subst hk
    simp only [↓reduceIte]
    unfold Vars.getD stripDotSlash
    cases h : Vars.get v k with
    | none =>
      have hp : hasPrefix (([] : Str)) "./".toList = false := by decide
      simp only [Option.getD_none, hp, Option.map_none']
      simpa using h
    | some u =>
      simp only [Option.getD_some, Option.map_some']
      split
      · rw [Vars.get_set]; simp
      · exact h
  · simp only [hk, ↓reduceIte]
    split
    · rw [Vars.get_set]; simp only [hk, ↓reduceIte]
    · rfl

/-- C5, as the code has it: for a readable file whose header parses to the map
`header`, `getVars` returns no error and the text after the first delimiter as
body; a key declared in the header resolves to the header's value, any other
key to the global value when there is one and otherwise to the default
(`layout.html` for `layout`); and `url`, wherever its value comes from (header,
globals or default), has one leading `./` removed. -/
theorem getVars_header (w : World) (path : Str) (globals : Vars) (s : Str)
    (sep : Nat) (header : Vars)
    (hread : w.readFile path = some s) (hdelim : index s delim = some sep)
    (hyaml : w.yamlUnmarshal (s.take sep) = .ok header) :
    ∃ v, getVars w path globals = ⟨[], .ret (v, s.drop (sep + delim.length), none)⟩ ∧
      ∀ k, Vars.get v k = resolvedValue w path globals header k := by
  refine ⟨if hasPrefix (Vars.getD (Vars.overlay (baseVars w path globals) header)
        "url".toList) "./".toList
      then Vars.set (Vars.overlay (baseVars w path globals) header) "url".toList
        ((Vars.getD (Vars.overlay (baseVars w path globals) header) "url".toList).drop 2)
      else Vars.overlay (baseVars w path globals) header, ?_, ?_⟩
  · simp only [getVars, hread, hdelim, hyaml]
    rfl
  · intro k
    rw [get_stripUrl]
    unfold resolvedValue
    simp only [Vars.get_overlay, baseVars_get]
    by_cases hk : k = "url".toList
    · subst hk
      simp only [↓reduceIte]
    · simp only [hk, ↓reduceIte]

theorem getVars_header_witness :
    (worldWithHeader "a.md".toList "title: Foo\n---\nhello".toList "title: Foo".toList
        [("title".toList, "Foo".toList)]).readFile "a.md".toList
        = some "title: Foo\n---\nhello".toList ∧
      index "title: Foo\n---\nhello".toList delim = some 10 ∧
      ∃ v, getVars (worldWithHeader "a.md".toList "title: Foo\n---\nhello".toList
            "title: Foo".toList [("title".toList, "Foo".toList)]) "a.md".toList
            [("title".toList, "Site".toList)]
          = ⟨[], .ret (v, ("title: Foo\n---\nhello".toList).drop (10 + delim.length), none)⟩ ∧
        ∀ k, Vars.get v k = resolvedValue
          (worldWithHeader "a.md".toList "title: Foo\n---\nhello".toList
            "title: Foo".toList [("title".toList, "Foo".toList)]) "a.md".toList
          [("title".toList, "Site".toList)] [("title".toList, "Foo".toList)] k :=
  ⟨by decide, by decide,
    getVars_header (worldWithHeader "a.md".toList "title: Foo\n---\nhello".toList
        "title: Foo".toList [("title".toList, "Foo".toList)]) "a.md".toList
      [("title".toList, "Site".toList)] "title: Foo\n---\nhello".toList 10
      [("title".toList, "Foo".toList)] (by decide) (by decide) (by rfl)⟩

/-- C5 as stated fails for `url`: for `./a.md` with the header `x: y`, neither the
header nor the globals declare `url` and its content-derived default is
`./a.html`, yet `getVars` resolves `url` to `a.html`. -/
theorem getVars_header_url_not_default :
    Vars.get [("x".toList, "y".toList)] "url".toList = none ∧
      Vars.get ([] : Vars) "url".toList = none ∧
      defaultValue (worldWithHeader "./a.md".toList "x: y\n---\nhello".toList
        "x: y".toList [("x".toList, "y".toList)]) "./a.md".toList "url".toList
        = some "./a.html".toList ∧
      ∃ v, getVars (worldWithHeader "./a.md".toList "x: y\n---\nhello".toList
            "x: y".toList [("x".toList, "y".toList)]) "./a.md".toList []
          = ⟨[], .ret (v, "hello".toList, none)⟩ ∧
        Vars.get v "url".toList = some "a.html".toList ∧
        Vars.get v "url".toList ≠ some "./a.html".toList :=
  ⟨by decide, by decide, by decide, _, rfl, by decide, by decide⟩

/-- C6 at its failing input: for the headerless file `./a.md` with no `url` in the
globals, `getVars` returns `url = "./a.html"`: the leading `./` is still there. -/
theorem getVars_no_header_url_keeps_dot_slash :
    index "hello".toList delim = none ∧
      ∃ v, getVars (worldWithFile "./a.md".toList "hello".toList) "./a.md".toList []
          = ⟨[], .ret (v, "hello".toList, none)⟩ ∧
        Vars.get v "url".toList = some "./a.html".toList :=
  ⟨by decide, _, rfl, by decide⟩

/-! ## Lemmas on strings -/

theorem index_append_self (d rest : Str) : index (d ++ rest) d = some 0 := by
  have hp : d.isPrefixOf (d ++ rest) = true :=
    List.isPrefixOf_iff_prefix.mpr (List.prefix_append d rest)
  cases h : d ++ rest with
  | nil => rw [h] at hp; simp [index, hp]
  | cons c t => rw [h] at hp; simp [index, hp]

theorem slice_middle (a b c : Str) :
    slice (a ++ b ++ c) a.length (a.length + b.length) = some b := by
  unfold slice
  have h1 : a.length ≤ a.length + b.length ∧
      a.length + b.length ≤ (a ++ b ++ c).length := by
    simp only [List.length_append]
    omega
  rw [if_pos h1]
  have h2 : (a ++ b ++ c).take (a.length + b.length) = a ++ b :=
    List.take_left' (by simp)
  rw [h2, List.drop_left' rfl]

theorem dropWhile_none (p : Char → Bool) (l : Str) (h : ∀ c ∈ l, p c = false) :
    l.dropWhile p = l := by
  cases l with
  | nil => rfl
  | cons a t => simp [List.dropWhile, h a (List.mem_cons_self a t)]

theorem trimSpace_padded (t : Str) (hne : t ≠ []) (hns : ∀ c ∈ t, isSpace c = false) :
    trimSpace ([' '] ++ t ++ [' ']) = t := by
  unfold trimSpace
  have hsp : isSpace ' ' = true := by decide
  have h1 : ([' '] ++ t ++ [' ']).dropWhile isSpace = t ++ [' '] := by
    cases t with
    | nil => exact absurd rfl hne
    | cons a r =>
      have ha : isSpace a = false := hns a (List.mem_cons_self a r)
      simp [List.dropWhile, hsp, ha]
  rw [h1]
  have h2 : (t ++ [' ']).reverse = ' ' :: t.reverse := by simp
  rw [h2]
  have h3 : (' ' :: t.reverse).dropWhile isSpace = t.reverse.dropWhile isSpace := by
    simp [List.dropWhile, hsp]
  rw [h3, dropWhile_none isSpace t.reverse (fun c hc => hns c (List.mem_reverse.mp hc))]
  exact List.reverse_reverse t

theorem fieldsAux_word (t rest cur : Str) (hns : ∀ c ∈ t, isSpace c = false) :
    fieldsAux (t ++ rest) cur = fieldsAux rest (t.reverse ++ cur) := by
  induction t generalizing cur with
  | nil => rfl
  | cons a r ih =>
    have ha : isSpace a = false := hns a (List.mem_cons_self a r)
    have hr : ∀ c ∈ r, isSpace c = false := fun c hc => hns c (List.mem_cons_of_mem a hc)
    have hstep : fieldsAux (a :: r ++ rest) cur = fieldsAux (r ++ rest) (a :: cur) := by
      simp only [List.cons_append, fieldsAux, ha, Bool.false_eq_true, ↓reduceIte]
      rfl
    rw [hstep, ih (a :: cur) hr]
    simp

theorem fields_word (t : Str) (hne : t ≠ []) (hns : ∀ c ∈ t, isSpace c = false) :
    fields t = [t] := by
  have h := fieldsAux_word t [] [] hns
  simp only [List.append_nil] at h
  unfold fields
  rw [h]
  simp [fieldsAux, hne]

/-! ## Lemmas on the `render` loop -/

theorem renderLoop_done (w : World) (vars : Vars) (fuel : Nat) (s out : Str)
    (hi : index s w.openingDelim = none) :
    renderLoop w vars (fuel + 1) s out = ⟨[], .ret (out ++ s, none)⟩ := by
  simp only [renderLoop, hi]
  rfl

theorem renderLoop_variable (w : World) (vars : Vars) (fuel : Nat) (s out : Str)
    (i j : Nat) (cmd m0 v : Str)
    (hi : index s w.openingDelim = some i) (hj : index s w.closingDelim = some j)
    (hs : slice s (i + w.openingDelim.length) j = some cmd)
    (hf : fields (trimSpace cmd) = [m0]) (hv : Vars.get vars m0 = some v) :
    renderLoop w vars (fuel + 1) s out
      = renderLoop w vars fuel (s.drop (j + w.closingDelim.length)) (out ++ s.take i ++ v) := by
  simp only [renderLoop, hi, hj, hs, hf, hv, ↓reduceIte]

theorem renderLoop_unknown (w : World) (vars : Vars) (fuel : Nat) (s out : Str)
    (i j : Nat) (cmd m0 : Str)
    (hi : index s w.openingDelim = some i) (hj : index s w.closingDelim = some j)
    (hs : slice s (i + w.openingDelim.length) j = some cmd)
    (hf : fields (trimSpace cmd) = [m0]) (hv : Vars.get vars m0 = none)
    (hl : w.lookPath m0 = false) :
    renderLoop w vars (fuel + 1) s out
      = Run.bind (emit (.lookPath m0)) (fun _ =>
          renderLoop w vars fuel (s.drop (j + w.closingDelim.length))
            (if w.production then out ++ s.take i
             else out ++ s.take i ++ m0 ++ ": plugin or variable not found".toList)) := by
  simp only [renderLoop, hi, hj, hs, hf, hv, hl, ↓reduceIte]
  cases w.production <;> rfl

/-! ## `render` -/

/-- C2, evaluated on the code: for every body that contains the opening delimiter
but no closing delimiter, `render` prints `closing delimiter not found` on
standard output and returns the empty text together with the error of that
print, which is nil whenever the write to standard output succeeds. -/
theorem render_unterminated (w : World) (vars : Vars) (s : Str) (i : Nat)
    (hopen : index s w.openingDelim = some i)
    (hclose : index s w.closingDelim = none) :
    render w s vars
      = ⟨[.printf "closing delimiter not found".toList []], .ret ([], w.printfErr)⟩ := by
  simp only [render, renderLoop, hopen, hclose]
  rfl

theorem render_unterminated_witness :
    index "\x7b\x7b open".toList world0.openingDelim = some 0 ∧
      index "\x7b\x7b open".toList world0.closingDelim = none ∧
      render world0 "\x7b\x7b open".toList []
        = ⟨[.printf "closing delimiter not found".toList []], .ret ([], none)⟩ :=
  ⟨by decide, by decide, render_unterminated world0 [] "\x7b\x7b open".toList 0 (by decide) (by decide)⟩

/-- C7, as the code has it: let the body be `pre + open + " " + name + " " + close +
post` with `name` a non-empty key of `vars` without white space. If the first
opening delimiter of the body is the one written after `pre`, its first closing
delimiter is the one written after `name`, and `post` contains no opening
delimiter, then `render` returns `pre + vars[name] + post` with no error, and
neither looks up nor runs any executable (it causes no event at all). -/
theorem render_variable (w : World) (vars : Vars) (pre name post x : Str)
    (hne : name ≠ []) (hns : ∀ c ∈ name, isSpace c = false)
    (hx : Vars.get vars name = some x)
    (hopen : index (pre ++ w.openingDelim ++ [' '] ++ name ++ [' '] ++ w.closingDelim ++ post)
      w.openingDelim = some pre.length)
    (hclose : index (pre ++ w.openingDelim ++ [' '] ++ name ++ [' '] ++ w.closingDelim ++ post)
      w.closingDelim = some (pre.length + w.openingDelim.length + 1 + name.length + 1))
    (hpost : index post w.openingDelim = none) :
    render w (pre ++ w.openingDelim ++ [' '] ++ name ++ [' '] ++ w.closingDelim ++ post) vars
      = ⟨[], .ret (pre ++ x ++ post, none)⟩ := by
  have hshape : pre ++ w.openingDelim ++ [' '] ++ name ++ [' '] ++ w.closingDelim ++ post
      = (pre ++ w.openingDelim) ++ ([' '] ++ name ++ [' ']) ++ (w.closingDelim ++ post) := by
    simp only [List.append_assoc]
  have hslice : slice (pre ++ w.openingDelim ++ [' '] ++ name ++ [' '] ++ w.closingDelim ++ post)
      (pre.length + w.openingDelim.length)
      (pre.length + w.openingDelim.length + 1 + name.length + 1)
      = some ([' '] ++ name ++ [' ']) := by
    have h := slice_middle (pre ++ w.openingDelim) ([' '] ++ name ++ [' '])
      (w.closingDelim ++ post)
    rw [← hshape] at h
    have hl1 : (pre ++ w.openingDelim).length = pre.length + w.openingDelim.length := by simp
    have hl2 : (pre ++ w.openingDelim).length + ([' '] ++ name ++ [' ']).length
        = pre.length + w.openingDelim.length + 1 + name.length + 1 := by
      simp only [List.length_append, List.length_singleton]
      omega
    rw [hl2, hl1] at h
    exact h
  have hfields : fields (trimSpace ([' '] ++ name ++ [' '])) = [name] := by
    rw [trimSpace_padded name hne hns, fields_word name hne hns]
  have hdrop : (pre ++ w.openingDelim ++ [' '] ++ name ++ [' '] ++ w.closingDelim ++ post).drop
      (pre.length + w.openingDelim.length + 1 + name.length + 1 + w.closingDelim.length)
      = post := by
    apply List.drop_left'
    simp only [List.length_append, List.length_singleton]
  have htake : (pre ++ w.openingDelim ++ [' '] ++ name ++ [' '] ++ w.closingDelim ++ post).take
      pre.length = pre := by
    simp only [List.append_assoc]
    exact List.take_left' rfl
  obtain ⟨n, hn⟩ : ∃ n, (pre ++ w.openingDelim ++ [' '] ++ name ++ [' '] ++ w.closingDelim
      ++ post).length = n + 1 := by
    refine ⟨pre.length + w.openingDelim.length + name.length + 1 + w.closingDelim.length
      + post.length, ?_⟩
    simp only [List.length_append, List.length_singleton]
    omega
  unfold render
  rw [renderLoop_variable w vars _ _ [] _ _ _ name x hopen hclose hslice hfields hx]
  rw [hdrop, htake, hn, renderLoop_done w vars n post _ hpost]
  simp

theorem render_variable_witness :
    "name".toList ≠ [] ∧ (∀ c ∈ "name".toList, isSpace c = false) ∧
      Vars.get [("name".toList, "X".toList)] "name".toList = some "X".toList ∧
      index ("a ".toList ++ world0.openingDelim ++ [' '] ++ "name".toList ++ [' ']
        ++ world0.closingDelim ++ " b".toList) world0.openingDelim
        = some ("a ".toList).length ∧
      index ("a ".toList ++ world0.openingDelim ++ [' '] ++ "name".toList ++ [' ']
        ++ world0.closingDelim ++ " b".toList) world0.closingDelim
        = some (("a ".toList).length + world0.openingDelim.length + 1
            + ("name".toList).length + 1) ∧
      index " b".toList world0.openingDelim = none ∧
      render world0 ("a ".toList ++ world0.openingDelim ++ [' '] ++ "name".toList ++ [' ']
        ++ world0.closingDelim ++ " b".toList) [("name".toList, "X".toList)]
        = ⟨[], .ret ("a ".toList ++ "X".toList ++ " b".toList, none)⟩ :=
  ⟨by decide, by decide, by decide, by decide, by decide, by decide,
    render_variable world0 [("name".toList, "X".toList)] "a ".toList "name".toList
      " b".toList "X".toList (by decide) (by decide) (by decide) (by decide) (by decide)
      (by decide)⟩

/-- C7 as stated fails: `pre = "a {"`, `name = "name"` and `post = " b"` contain
neither `{{` nor `}}`, and `name` is a key of `vars`; yet in the body
`a {{{ name }} b` the first `{{` starts inside `pre`, the token read is
`{ name`, the executable `{` is looked up, and the output is not `a {X b`. -/
theorem render_variable_brace_before_macro :
    index "a \x7b".toList "\x7b\x7b".toList = none ∧ index "a \x7b".toList "\x7d\x7d".toList = none ∧
      index " b".toList "\x7b\x7b".toList = none ∧ index " b".toList "\x7d\x7d".toList = none ∧
      index "name".toList "\x7b\x7b".toList = none ∧ index "name".toList "\x7d\x7d".toList = none ∧
      (∀ c ∈ "name".toList, isSpace c = false) ∧
      Vars.get [("name".toList, "X".toList)] "name".toList = some "X".toList ∧
      render world0 ("a \x7b".toList ++ "\x7b\x7b".toList ++ " ".toList ++ "name".toList
          ++ " ".toList ++ "\x7d\x7d".toList ++ " b".toList) [("name".toList, "X".toList)]
        = ⟨[.lookPath "\x7b".toList],
            .ret ("a \x7b: plugin or variable not found b".toList, none)⟩ ∧
      render world0 ("a \x7b".toList ++ "\x7b\x7b".toList ++ " ".toList ++ "name".toList
          ++ " ".toList ++ "\x7d\x7d".toList ++ " b".toList) [("name".toList, "X".toList)]
        ≠ ⟨[], .ret ("a \x7b".toList ++ "X".toList ++ " b".toList, none)⟩ := by
  refine ⟨by decide, by decide, by decide, by decide, by decide, by decide, by decide,
    by decide, by decide, by decide⟩

/-- C8: let `t` be a single word (non-empty, no white space) that is neither a key
of `vars` nor an executable on the search path, and the token of the body
`open + " " + t + " " + close` (the opening delimiter is non-empty and the first
closing delimiter of the body is the one written after `t`). Then `render`
returns no error; outside production mode the output is the placeholder
`t + ": plugin or variable not found"`, which contains `t`, and in production
mode it is the empty string. -/
theorem render_unknown_token (w : World) (vars : Vars) (t : Str)
    (hne : t ≠ []) (hns : ∀ c ∈ t, isSpace c = false)
    (hvar : Vars.get vars t = none) (hexe : w.lookPath t = false)
    (hopen : w.openingDelim ≠ [])
    (hclose : index (w.openingDelim ++ [' '] ++ t ++ [' '] ++ w.closingDelim) w.closingDelim
      = some (w.openingDelim.length + 1 + t.length + 1)) :
    render w (w.openingDelim ++ [' '] ++ t ++ [' '] ++ w.closingDelim) vars
      = ⟨[.lookPath t],
          .ret (if w.production then []
                else t ++ ": plugin or variable not found".toList, none)⟩ ∧
      (w.production = false →
        t <:+: (if w.production then []
                else t ++ ": plugin or variable not found".toList)) := by
  refine ⟨?_, fun hp => by rw [hp]; exact List.infix_append' [] t _⟩
  have hshape : w.openingDelim ++ [' '] ++ t ++ [' '] ++ w.closingDelim
      = w.openingDelim ++ ([' '] ++ t ++ [' ']) ++ w.closingDelim := by
    simp only [List.append_assoc]
  have hfrom : index (w.openingDelim ++ [' '] ++ t ++ [' '] ++ w.closingDelim) w.openingDelim
      = some 0 := by
    simp only [List.append_assoc]
    exact index_append_self _ _
  have hslice : slice (w.openingDelim ++ [' '] ++ t ++ [' '] ++ w.closingDelim)
      (0 + w.openingDelim.length) (w.openingDelim.length + 1 + t.length + 1)
      = some ([' '] ++ t ++ [' ']) := by
    have h := slice_middle w.openingDelim ([' '] ++ t ++ [' ']) w.closingDelim
    rw [← hshape] at h
    have hl2 : w.openingDelim.length + ([' '] ++ t ++ [' ']).length
        = w.openingDelim.length + 1 + t.length + 1 := by
      simp only [List.length_append, List.length_singleton]
      omega
    rw [hl2] at h
    rw [Nat.zero_add]
    exact h
  have hfields : fields (trimSpace ([' '] ++ t ++ [' '])) = [t] := by
    rw [trimSpace_padded t hne hns, fields_word t hne hns]
  have hdrop : (w.openingDelim ++ [' '] ++ t ++ [' '] ++ w.closingDelim).drop
      (w.openingDelim.length + 1 + t.length + 1 + w.closingDelim.length) = [] := by
    apply List.drop_eq_nil_of_le
    simp only [List.length_append, List.length_singleton]
    omega
  obtain ⟨n, hn⟩ : ∃ n, (w.openingDelim ++ [' '] ++ t ++ [' '] ++ w.closingDelim).length
      = n + 1 := by
    refine ⟨w.openingDelim.length + t.length + 1 + w.closingDelim.length, ?_⟩
    simp only [List.length_append, List.length_singleton]
    omega
  have hlast : index [] w.openingDelim = none := by
    cases hd : w.openingDelim with
    | nil => exact absurd hd hopen
    | cons c r => simp [index]
  unfold render
  rw [renderLoop_unknown w vars _ _ [] _ _ _ t hfrom hclose hslice hfields hvar hexe]
  rw [hdrop, hn, renderLoop_done w vars n [] _ hlast]
  cases w.production <;> simp [Run.bind, emit]

theorem render_unknown_token_witness :
    "unknown".toList ≠ [] ∧ (∀ c ∈ "unknown".toList, isSpace c = false) ∧
      Vars.get ([] : Vars) "unknown".toList = none ∧
      world0.lookPath "unknown".toList = false ∧ world0.openingDelim ≠ [] ∧
      index (world0.openingDelim ++ [' '] ++ "unknown".toList ++ [' ']
        ++ world0.closingDelim) world0.closingDelim
        = some (world0.openingDelim.length + 1 + ("unknown".toList).length + 1) ∧
      (render world0 (world0.openingDelim ++ [' '] ++ "unknown".toList ++ [' ']
          ++ world0.closingDelim) []
        = ⟨[.lookPath "unknown".toList],
            .ret (if world0.production then []
                  else "unknown".toList ++ ": plugin or variable not found".toList, none)⟩ ∧
        (world0.production = false →
          "unknown".toList <:+: (if world0.production then []
            else "unknown".toList ++ ": plugin or variable not found".toList))) :=
  ⟨by decide, by decide, by decide, by decide, by decide, by decide,
    render_unknown_token world0 [] "unknown".toList (by decide) (by decide) (by decide)
      (by decide) (by decide) (by decide)⟩

/-- C9, evaluated on the code: when the opening and closing delimiters are the
same non-empty string, `render` panics (slice bounds out of range) on every
body that contains the delimiter: both searches find the same offset, so the
token slice starts after it ends. -/
theorem render_equal_delims_panics (w : World) (vars : Vars) (s : Str) (i : Nat)
    (heq : w.closingDelim = w.openingDelim) (hne : w.openingDelim ≠ [])
    (hi : index s w.openingDelim = some i) :
    render w s vars = ⟨[], .panic "slice bounds out of range".toList⟩ := by
  have hlen : 0 < w.openingDelim.length := List.length_pos.mpr hne
  have hs : slice s (i + w.openingDelim.length) i = none := by
    unfold slice
    rw [if_neg]
    intro h
    omega
  simp only [render, renderLoop, hi, heq, hs]
  rfl

theorem render_equal_delims_panics_witness :
    (worldWithDelim "%%".toList).closingDelim = (worldWithDelim "%%".toList).openingDelim ∧
      (worldWithDelim "%%".toList).openingDelim ≠ [] ∧
      index "a %% name %% b".toList (worldWithDelim "%%".toList).openingDelim = some 2 ∧
      render (worldWithDelim "%%".toList) "a %% name %% b".toList
          [("name".toList, "X".toList)]
        = ⟨[], .panic "slice bounds out of range".toList⟩ :=
  ⟨by decide, by decide, by decide,
    render_equal_delims_panics (worldWithDelim "%%".toList) [("name".toList, "X".toList)]
      "a %% name %% b".toList 2 (by decide) (by decide) (by decide)⟩

/-! ## `buildHTML` -/

/-- C10 at its failing input: `p.html` declares `k: v` in its front matter and
`getVars` resolves `k` to `v`, but the data context `buildHTML` hands to
`tmpl.Execute` is its argument `vars` (here the globals), in which `k` is
absent. -/
theorem buildHTML_data_lacks_front_matter :
    (∃ v, (getVars (worldWithHeader "p.html".toList "k: v\n---\n<% .k %>".toList
          "k: v".toList [("k".toList, "v".toList)]) "p.html".toList
          [("title".toList, "Site".toList)]).res = .ret (v, "<% .k %>".toList, none) ∧
        Vars.get v "k".toList = some "v".toList) ∧
      buildHTML (worldWithHeader "p.html".toList "k: v\n---\n<% .k %>".toList
          "k: v".toList [("k".toList, "v".toList)]) "p.html".toList (some .stdout)
          [("title".toList, "Site".toList)]
        = ⟨[.templateExecute "<% .k %>".toList .stdout [("title".toList, "Site".toList)]],
            .ret none⟩ ∧
      Vars.get [("title".toList, "Site".toList)] "k".toList = none :=
  ⟨⟨_, rfl, by decide⟩, by decide, by decide⟩

/-! ## The tree walk -/

theorem run_returns (w : World) (vars : Vars) (cmd : Str) (args : List Str) :
    ∃ r, (run w vars cmd args).res = .ret r := by
  unfold run
  cases w.readFile (w.filepathJoin w.ZSDIR (cmd ++ ".html".toList)) with
  | some b => exact ⟨_, rfl⟩
  | none =>
    simp only []
    cases (w.command cmd args _).err with
    | none => exact ⟨_, rfl⟩
    | some err => exact ⟨_, rfl⟩

theorem walkFn_failed_build (w : World) (vars : Vars) (st : WalkState) (e : Entry)
    (info : FileInfo) (err : GoError)
    (hinfo : e.info = some info) (herr : e.err = none) (hfile : info.isDir = false)
    (hnew : info.modTime > st.lastModified)
    (hbase : filepathBase e.path ≠ w.ZSIGNORE) (hdir : w.filepathDir e.path ≠ w.ZSDIR)
    (hbuild : (build w e.path none vars).res = .ret (some err)) :
    ∃ st2, (walkFn w vars st e).res = .ret (st2, some err) := by
  unfold walkFn
  simp only [hbase, hdir, hinfo, herr, hfile, hnew, decide_False, Bool.or_self,
    Bool.false_eq_true, ↓reduceIte]
  cases hm : st.modified with
  | true =>
    simp only [Bool.not_true, Bool.false_eq_true, ↓reduceIte, bind, pure, Run.bind, emit,
      hbuild]
    exact ⟨_, rfl⟩
  | false =>
    cases hl : w.lookPath "prehook".toList with
    | false =>
      simp only [Bool.not_false, ↓reduceIte, bind, pure, Run.bind, emit, hbuild, hl,
        Bool.false_eq_true]
      exact ⟨_, rfl⟩
    | true =>
      obtain ⟨r, hr⟩ := run_returns w vars "prehook".toList []
      cases hr2 : r.2 with
      | none =>
        simp only [Bool.not_false, ↓reduceIte, bind, pure, Run.bind, emit, hbuild, hl, hr,
          hr2]
        exact ⟨_, rfl⟩
      | some e2 =>
        simp only [Bool.not_false, ↓reduceIte, bind, pure, Run.bind, emit, hbuild, hl, hr,
          hr2]
        exact ⟨_, rfl⟩

theorem walk_cons (w : World) (vars : Vars) (st : WalkState) (e : Entry)
    (rest : List Entry) :
    walk w vars st (e :: rest)
      = Run.bind (walkFn w vars st e) (fun r =>
          match r.2 with
          | some err => pure (r.1, some err)
          | none => walk w vars r.1 rest) := rfl

theorem walk_stops_after (w : World) (vars : Vars) (pre : List Entry) :
    ∀ (st st1 st2 : WalkState) (e : Entry) (post : List Entry) (err : GoError),
      (walk w vars st pre).res = .ret (st1, none) →
      (walkFn w vars st1 e).res = .ret (st2, some err) →
      walk w vars st (pre ++ e :: post) = walk w vars st (pre ++ [e]) ∧
        (walk w vars st (pre ++ e :: post)).res = .ret (st2, some err) := by
  induction pre with
  | nil =>
    intro st st1 st2 e post err hpre hfn
    have hst : st1 = st := by
      have h : (Res.ret (st, (none : Option GoError)) : Res (WalkState × Option GoError))
          = .ret (st1, none) := hpre
      injection h with h
      exact (congrArg Prod.fst h).symm
    subst hst
    simp only [List.nil_append, walk_cons, Run.bind, hfn]
    exact ⟨trivial, rfl⟩
  | cons a pre ih =>
    intro st st1 st2 e post err hpre hfn
    rw [walk_cons] at hpre
    simp only [List.cons_append, walk_cons]
    cases hres : (walkFn w vars st a).res with
    | panic msg => simp [Run.bind, hres] at hpre
    | outOfFuel => simp [Run.bind, hres] at hpre
    | ret r =>
      obtain ⟨sa, ea⟩ := r
      cases ea with
      | some e1 =>
        simp only [Run.bind, hres] at hpre
        have h : (Res.ret (sa, some e1) : Res (WalkState × Option GoError))
            = .ret (st1, none) := hpre
        injection h with h
        have h2 := congrArg Prod.snd h
        simp at h2
      | none =>
        simp only [Run.bind, hres] at hpre ⊢
        obtain ⟨h1, h2⟩ := ih sa st1 st2 e post err hpre hfn
        exact ⟨by rw [h1], h2⟩

/-- C1, as the code has it: when the build of an entry fails, the callback returns
the build error and `filepath.Walk` stops there. If the walk reaches a regular
file `e` that is newer than the watermark (and is neither the ignore file nor
in the support directory) and `build` returns an error for it, then the
entries after `e` have no effect at all (none is visited or built in that
cycle) and the walk returns that build error. -/
theorem walk_stops_at_failed_build (w : World) (vars : Vars) (st st1 : WalkState)
    (pre : List Entry) (e : Entry) (post : List Entry) (info : FileInfo) (err : GoError)
    (hpre : (walk w vars st pre).res = .ret (st1, none))
    (hinfo : e.info = some info) (herr : e.err = none) (hfile : info.isDir = false)
    (hnew : info.modTime > st1.lastModified)
    (hbase : filepathBase e.path ≠ w.ZSIGNORE) (hdir : w.filepathDir e.path ≠ w.ZSDIR)
    (hbuild : (build w e.path none vars).res = .ret (some err)) :
    walk w vars st (pre ++ e :: post) = walk w vars st (pre ++ [e]) ∧
      ∃ st2, (walk w vars st (pre ++ e :: post)).res = .ret (st2, some err) := by
  obtain ⟨st2, hfn⟩ :=
    walkFn_failed_build w vars st1 e info err hinfo herr hfile hnew hbase hdir hbuild
  obtain ⟨h1, h2⟩ := walk_stops_after w vars pre st st1 st2 e post err hpre hfn
  exact ⟨h1, st2, h2⟩

theorem walk_stops_at_failed_build_witness :
    (walk worldRawOnly [] ⟨0, false⟩ [fileEntry "a.txt".toList 5]).res
        = .ret (⟨0, false⟩, none) ∧
      (fileEntry "b.md".toList 5).info = some ⟨false, 5⟩ ∧
      (fileEntry "b.md".toList 5).err = none ∧
      (⟨false, 5⟩ : FileInfo).isDir = false ∧
      (⟨false, 5⟩ : FileInfo).modTime > (⟨0, false⟩ : WalkState).lastModified ∧
      filepathBase (fileEntry "b.md".toList 5).path ≠ worldRawOnly.ZSIGNORE ∧
      worldRawOnly.filepathDir (fileEntry "b.md".toList 5).path ≠ worldRawOnly.ZSDIR ∧
      (build worldRawOnly (fileEntry "b.md".toList 5).path none []).res
        = .ret (some "358".toList) ∧
      (walk worldRawOnly [] ⟨0, false⟩
          ([fileEntry "a.txt".toList 5] ++ fileEntry "b.md".toList 5
            :: [fileEntry "c.txt".toList 5])
        = walk worldRawOnly [] ⟨0, false⟩
          ([fileEntry "a.txt".toList 5] ++ [fileEntry "b.md".toList 5]) ∧
        ∃ st2, (walk worldRawOnly [] ⟨0, false⟩
          ([fileEntry "a.txt".toList 5] ++ fileEntry "b.md".toList 5
            :: [fileEntry "c.txt".toList 5])).res = .ret (st2, some "358".toList)) :=
  ⟨by decide, by decide, by decide, by decide, by decide, by decide, by decide, by decide,
    walk_stops_at_failed_build worldRawOnly [] ⟨0, false⟩ ⟨0, false⟩
      [fileEntry "a.txt".toList 5] (fileEntry "b.md".toList 5)
      [fileEntry "c.txt".toList 5] ⟨false, 5⟩ "358".toList
      (by decide) (by decide) (by decide) (by decide) (by decide) (by decide) (by decide)
      (by decide)⟩

/-- C1 as stated fails: in the tree `a.txt`, `b.md`, `c.txt`, all newer than the
watermark, the build of `b.md` fails (the file cannot be read); the walk then
returns that error and `c.txt`, a later entry newer than the watermark, is
never built in that cycle, although a walk over `c.txt` alone builds it. -/
theorem walk_skips_entries_after_failed_build :
    (build worldRawOnly "b.md".toList none []).res = .ret (some "358".toList) ∧
      (5 : Int) > (⟨0, false⟩ : WalkState).lastModified ∧
      Event.log "build: %s".toList ["b.md".toList]
        ∈ (walk worldRawOnly [] ⟨0, false⟩ [fileEntry "a.txt".toList 5,
            fileEntry "b.md".toList 5, fileEntry "c.txt".toList 5]).events ∧
      Event.log "build: %s".toList ["c.txt".toList]
        ∉ (walk worldRawOnly [] ⟨0, false⟩ [fileEntry "a.txt".toList 5,
            fileEntry "b.md".toList 5, fileEntry "c.txt".toList 5]).events ∧
      Event.copy "c.txt".toList (.file ".pub/c.txt".toList)
        ∉ (walk worldRawOnly [] ⟨0, false⟩ [fileEntry "a.txt".toList 5,
            fileEntry "b.md".toList 5, fileEntry "c.txt".toList 5]).events ∧
      Event.copy "c.txt".toList (.file ".pub/c.txt".toList)
        ∈ (walk worldRawOnly [] ⟨0, false⟩ [fileEntry "c.txt".toList 5]).events ∧
      (walk worldRawOnly [] ⟨0, false⟩ [fileEntry "a.txt".toList 5,
          fileEntry "b.md".toList 5, fileEntry "c.txt".toList 5]).res
        = .ret (⟨0, false⟩, some "358".toList) := by
  refine ⟨by decide, by decide, by decide, by decide, by decide, by decide, by decide⟩

/-! ## Hooks -/

/-- C11 at its failing inputs. First: with `posthook` on the search path and no
`prehook`, a cycle that builds `a.txt` never looks up or runs `posthook`
(`modified` is set only where `prehook` was found). Second: with `prehook` on
the search path and no `posthook`, `modified` stays set after the first cycle,
so the second cycle of the watch loop builds `a.txt` without running
`prehook`. -/
theorem hooks_depend_on_each_other :
    (worldWithExecutables ["posthook".toList]).lookPath "posthook".toList = true ∧
      tick (worldWithExecutables ["posthook".toList]) [] ⟨0, false⟩
          [fileEntry "a.txt".toList 5]
        = ⟨[.mkdir ".pub".toList, .lookPath "prehook".toList,
            .log "build: %s".toList ["a.txt".toList],
            .create ".pub/a.txt".toList, .chmod ".pub/a.txt".toList 420,
            .copy "a.txt".toList (.file ".pub/a.txt".toList)],
            .ret (⟨0, false⟩, none)⟩ ∧
      (buildAll [] true
          [⟨worldWithExecutables ["prehook".toList], [fileEntry "a.txt".toList 5], 10⟩,
           ⟨worldWithExecutables ["prehook".toList], [fileEntry "a.txt".toList 15], 20⟩]).events
        = [.mkdir ".pub".toList, .lookPath "prehook".toList,
            .exec "prehook".toList [] ["ZS=zs".toList, "ZS_OUTDIR=.pub".toList],
            .log "build: %s".toList ["a.txt".toList],
            .create ".pub/a.txt".toList, .chmod ".pub/a.txt".toList 420,
            .copy "a.txt".toList (.file ".pub/a.txt".toList),
            .lookPath "posthook".toList,
            .mkdir ".pub".toList,
            .log "build: %s".toList ["a.txt".toList],
            .create ".pub/a.txt".toList, .chmod ".pub/a.txt".toList 420,
            .copy "a.txt".toList (.file ".pub/a.txt".toList),
            .lookPath "posthook".toList] := by
  refine ⟨by decide, by decide, by decide⟩

/-! ## Traversal errors -/

/-- C14 on the code: for an entry that is the ignore file or lies directly in the
support directory and whose file info is missing, the callback panics: it
calls `info.ModTime()` before it looks at the traversal error. -/
theorem walkFn_panics_on_missing_info (w : World) (vars : Vars) (st : WalkState)
    (e : Entry)
    (hsup : filepathBase e.path = w.ZSIGNORE ∨ w.filepathDir e.path = w.ZSDIR)
    (hinfo : e.info = none) :
    walkFn w vars st e
      = ⟨[], .panic "invalid memory address or nil pointer dereference".toList⟩ := by
  unfold walkFn
  have hb : (decide (filepathBase e.path = w.ZSIGNORE)
      || decide (w.filepathDir e.path = w.ZSDIR)) = true := by
    cases hsup with
    | inl h => simp [h]
    | inr h => simp [h]
  simp only [hb, hinfo, ↓reduceIte, Option.map_none']
  rfl

theorem walkFn_panics_on_missing_info_witness :
    (filepathBase (Entry.mk ".zsignore".toList none
          (some "lstat .zsignore: permission denied".toList)).path = world0.ZSIGNORE ∨
        world0.filepathDir (Entry.mk ".zsignore".toList none
          (some "lstat .zsignore: permission denied".toList)).path = world0.ZSDIR) ∧
      (Entry.mk ".zsignore".toList none
          (some "lstat .zsignore: permission denied".toList)).info = none ∧
      walkFn world0 [] ⟨0, false⟩ (Entry.mk ".zsignore".toList none
          (some "lstat .zsignore: permission denied".toList))
        = ⟨[], .panic "invalid memory address or nil pointer dereference".toList⟩ :=
  ⟨by decide, by decide,
    walkFn_panics_on_missing_info world0 [] ⟨0, false⟩ (Entry.mk ".zsignore".toList none
      (some "lstat .zsignore: permission denied".toList)) (by decide) (by decide)⟩

theorem walkFn_logs_walk_error (w : World) (vars : Vars) (st : WalkState) (e : Entry)
    (err : GoError)
    (hbase : filepathBase e.path ≠ w.ZSIGNORE) (hdir : w.filepathDir e.path ≠ w.ZSDIR)
    (herr : e.err = some err) :
    walkFn w vars st e
      = ⟨[.log "%e: error walking directory".toList [err]], .ret (st, none)⟩ := by
  unfold walkFn
  simp only [hbase, hdir, herr, decide_False, Bool.or_self, Bool.false_eq_true, ↓reduceIte]
  rfl

/-! ## The build command -/

/-- C19 on the code of main.go: when `build(file, os.Stdout, globals())` returns an
error, and likewise when `buildAll` does, `BuildCmd` prints a message and
returns the error of that print, which is nil whenever the write to standard
output succeeds. -/
theorem BuildCmd_returns_print_error (w : World) (globals : Vars) (ticks : List Tick) :
    (∀ file rest err, (build w file (some .stdout) globals).res = .ret (some err) →
        (BuildCmd w globals (file :: rest) ticks).res = .ret w.printfErr) ∧
      (∀ err, (buildAll globals false ticks).res = .ret (some err) →
        (BuildCmd w globals [] ticks).res = .ret w.printfErr) := by
  constructor
  · intro file rest err h
    simp only [BuildCmd, bind, Run.bind, h, emit, pure]
  · intro err h
    simp only [BuildCmd, bind, Run.bind, h, emit, pure]

theorem BuildCmd_returns_print_error_witness :
    (build world0 "missing.md".toList (some .stdout) []).res = .ret (some "358".toList) ∧
      (BuildCmd world0 [] ["missing.md".toList] []).res = .ret none ∧
      (buildAll [] false [⟨worldRawOnly, [fileEntry "b.md".toList 5], 10⟩]).res
        = .ret (some "358".toList) ∧
      (BuildCmd world0 [] [] [⟨worldRawOnly, [fileEntry "b.md".toList 5], 10⟩]).res
        = .ret none :=
  ⟨by decide,
    (BuildCmd_returns_print_error world0 [] []).1 "missing.md".toList [] "358".toList
      (by decide),
    by decide,
    (BuildCmd_returns_print_error world0 []
      [⟨worldRawOnly, [fileEntry "b.md".toList 5], 10⟩]).2 "358".toList (by decide)⟩

theorem BuildCmdSssg_returns_error (w : World) (globals : Vars) (ticks : List Tick)
    (file : Str) (rest : List Str) (err : GoError)
    (h : (build w file (some .stdout) globals).res = .ret (some err)) :
    (BuildCmdSssg w globals (file :: rest) ticks).res
      = .ret (some ("error building file ".toList ++ file)) := by
  simp only [BuildCmdSssg, bind, Run.bind, h, pure]

/-! ## Totality of `render` -/

/-- C20 at its failing inputs, with the delimiters `{{` and `}}`: on the macros
`{{ }}` and `{{}}`, whose token is blank or empty, `render` panics on `m[0]`,
and on `}} {{ name }}`, whose first closing delimiter precedes the first
opening delimiter, it panics on the token slice. -/
theorem render_panics_on_degenerate_macros :
    render world0 "\x7b\x7b \x7d\x7d".toList []
        = ⟨[], .panic "index out of range [0] with length 0".toList⟩ ∧
      render world0 "\x7b\x7b\x7d\x7d".toList []
        = ⟨[], .panic "index out of range [0] with length 0".toList⟩ ∧
      render world0 "\x7d\x7d \x7b\x7b name \x7d\x7d".toList [("name".toList, "X".toList)]
        = ⟨[], .panic "slice bounds out of range".toList⟩ := by
  refine ⟨by decide, by decide, by decide⟩

/-- C18: on a body without the opening delimiter `render` returns the body
unchanged, with no error and no event, whatever else the body contains; so
`render` applied to its output returns the same text again. -/
theorem render_without_opening_delimiter (w : World) (vars : Vars) (s : Str)
    (h : index s w.openingDelim = none) :
    render w s vars = ⟨[], .ret (s, none)⟩ ∧
      ∀ t e, (render w s vars).res = .ret (t, e) →
        render w t vars = ⟨[], .ret (s, none)⟩ := by
  have h1 : render w s vars = ⟨[], .ret (s, none)⟩ := by
    unfold render
    rw [renderLoop_done w vars s.length s [] h]
    rfl
  refine ⟨h1, ?_⟩
  intro t e ht
  rw [h1] at ht
  have hts : t = s := by
    injection ht with ht
    exact (congrArg Prod.fst ht).symm
  rw [hts]
  exact h1

theorem render_without_opening_delimiter_witness :
    index "a \x7d\x7d b".toList world0.openingDelim = none ∧
      (render world0 "a \x7d\x7d b".toList [] = ⟨[], .ret ("a \x7d\x7d b".toList, none)⟩ ∧
        ∀ t e, (render world0 "a \x7d\x7d b".toList []).res = .ret (t, e) →
          render world0 t [] = ⟨[], .ret ("a \x7d\x7d b".toList, none)⟩) :=
  ⟨by decide, render_without_opening_delimiter world0 [] "a \x7d\x7d b".toList (by decide)⟩

/-! ## The plugin environment -/

theorem Vars.mem_entries (v : Vars) (k x : Str) :
    (k, x) ∈ Vars.entries v ↔ Vars.get v k = some x := by
  induction v with
  | nil => simp [Vars.entries, Vars.get]
  | cons e r ih =>
    obtain ⟨a, b⟩ := e
    by_cases h : a = k
    · subst h
      simp only [Vars.entries, Vars.get, List.mem_cons, List.mem_filter, Prod.mk.injEq,
        true_and, ↓reduceIte, Option.some.injEq]
      constructor
      · rintro (h1 | ⟨_, h2⟩)
        · exact h1.symm
        · simp at h2
      · intro h1
        exact Or.inl h1.symm
    · have h' : ¬ k = a := fun hh => h hh.symm
      simp only [Vars.entries, Vars.get, List.mem_cons, List.mem_filter, Prod.mk.injEq, h,
        h', false_and, false_or, ↓reduceIte, ih]
      simp [h']

/-- C15: when no partial named after the command exists, `run` starts the child
process with an environment made of `ZS=` + `os.Args[0]`, `ZS_OUTDIR=` + `PUBDIR`,
the entries of `os.Environ()`, and one entry `ZS_` + upper-case(k) + `=` + v for
each variable `k` with value `v` other than `content`, and nothing else: the
variable `content` contributes no entry. -/
theorem run_environment (w : World) (vars : Vars) (cmd : Str) (args : List Str)
    (hpart : w.readFile (w.filepathJoin w.ZSDIR (cmd ++ ".html".toList)) = none) :
    ∃ derived : List Str,
      (run w vars cmd args).events.head?
        = some (.exec cmd args
            (["ZS=".toList ++ w.arg0, "ZS_OUTDIR=".toList ++ PUBDIR] ++ w.environ ++ derived)) ∧
      ∀ x, x ∈ derived ↔
        ∃ k v, Vars.get vars k = some v ∧ k ≠ "content".toList ∧
          x = "ZS_".toList ++ w.toUpper k ++ "=".toList ++ v := by
  refine ⟨((Vars.entries vars).filter (fun e => e.1 ≠ "content".toList)).map
      (fun e => "ZS_".toList ++ w.toUpper e.1 ++ "=".toList ++ e.2), ?_, ?_⟩
  · unfold run
    simp only [hpart]
    cases (w.command cmd args _).err with
    | none => rfl
    | some err => rfl
  · intro x
    simp only [List.mem_map, List.mem_filter, decide_eq_true_eq, Prod.exists]
    constructor
    · rintro ⟨k, v, ⟨hm, hk⟩, hx⟩
      exact ⟨k, v, (Vars.mem_entries vars k v).mp hm, hk, hx.symm⟩
    · rintro ⟨k, v, hg, hk, hx⟩
      exact ⟨k, v, ⟨(Vars.mem_entries vars k v).mpr hg, hk⟩, hx.symm⟩

theorem run_environment_witness :
    world0.readFile (world0.filepathJoin world0.ZSDIR ("ls".toList ++ ".html".toList))
        = none ∧
      ∃ derived : List Str,
        (run world0 [("title".toList, "T".toList), ("content".toList, "C".toList)]
            "ls".toList []).events.head?
          = some (.exec "ls".toList []
              (["ZS=".toList ++ world0.arg0, "ZS_OUTDIR=".toList ++ PUBDIR]
                ++ world0.environ ++ derived)) ∧
        ∀ x, x ∈ derived ↔
          ∃ k v, Vars.get [("title".toList, "T".toList), ("content".toList, "C".toList)] k
              = some v ∧ k ≠ "content".toList ∧
            x = "ZS_".toList ++ world0.toUpper k ++ "=".toList ++ v :=
  ⟨by decide,
    run_environment world0 [("title".toList, "T".toList), ("content".toList, "C".toList)]
      "ls".toList [] (by decide)⟩

/-! ## Dispatch by extension -/

theorem getVars_headerless (w : World) (path : Str) (globals : Vars) (s : Str)
    (hread : w.readFile path = some s) (hdelim : index s delim = none) :
    getVars w path globals = ⟨[], .ret (baseVars w path globals, s, none)⟩ := by
  simp only [getVars, hread, hdelim]
  rfl

theorem buildRaw_events (w : World) (path : Str) (sink : Option Writer) :
    ∀ ev ∈ (buildRaw w path sink).events,
      (∃ p, ev = .create p) ∨ (∃ p m, ev = .chmod p m) ∨ (∃ p o, ev = .copy p o) := by
  intro ev hev
  unfold buildRaw at hev
  cases ho : w.openFile path with
  | some err => simp [ho, pure] at hev
  | none =>
    cases sink with
    | some out =>
      simp only [ho, bind, Run.bind, emit, pure, List.append_nil, List.mem_singleton] at hev
      exact Or.inr (Or.inr ⟨_, _, hev⟩)
    | none =>
      cases hs : w.stat path with
      | error err => simp [ho, hs, pure] at hev
      | ok mode =>
        cases hc : w.create (w.filepathJoin PUBDIR path) with
        | some err => simp [ho, hs, hc, pure] at hev
        | none =>
          cases hm : w.chmod (w.filepathJoin PUBDIR path) mode with
          | some err =>
            simp only [ho, hs, hc, hm, bind, Run.bind, emit, pure, List.append_nil,
              List.singleton_append, List.mem_cons, List.mem_singleton, List.not_mem_nil,
              or_false] at hev
            rcases hev with h | h
            · exact Or.inl ⟨_, h⟩
            · exact Or.inr (Or.inl ⟨_, _, h⟩)
          | none =>
            simp only [ho, hs, hc, hm, bind, Run.bind, emit, pure, List.append_nil,
              List.singleton_append, List.mem_cons, List.mem_singleton, List.not_mem_nil,
              or_false] at hev
            rcases hev with h | h | h
            · exact Or.inl ⟨_, h⟩
            · exact Or.inr (Or.inl ⟨_, _, h⟩)
            · exact Or.inr (Or.inr ⟨_, _, h⟩)

theorem or_or_getD (a b : Option Str) (d : Str) :
    (a.or (b.or (some d))).getD [] = (a.or b).getD d := by
  cases a <;> cases b <;> rfl

theorem run_ret_inj {α : Type} {e1 e2 : List Event} {x y : α}
    (h : (⟨e1, .ret x⟩ : Run α) = ⟨e2, .ret y⟩) : x = y := by
  have h2 := congrArg Run.res h
  injection h2

theorem baseVars_layout (w : World) (path : Str) (globals : Vars) :
    Vars.get (baseVars w path globals) "layout".toList
      = (Vars.get globals "layout".toList).or (some "layout.html".toList) := by
  rw [baseVars_get]
  unfold globalOrDefault
  rw [if_pos rfl]

theorem getVars_layout (w : World) (path : Str) (globals v : Vars) (body : Str)
    (gev : List Event)
    (h : getVars w path globals = ⟨gev, .ret (v, body, none)⟩) :
    Vars.getD v "layout".toList = layoutOf w path globals := by
  unfold layoutOf headerOf
  unfold getVars at h
  cases hr : w.readFile path with
  | none =>
    rw [hr] at h
    have h2 := run_ret_inj h
    have h3 := congrArg (fun t => t.2.2) h2
    exact absurd h3 (by simp)
  | some s =>
    rw [hr] at h
    simp only [] at h ⊢
    cases hd : index s delim with
    | none =>
      rw [hd] at h
      simp only [] at h ⊢
      have h2 : baseVars w path globals = v := congrArg (fun t => t.1) (run_ret_inj h)
      rw [← h2]
      unfold Vars.getD
      rw [baseVars_layout]
      have hnil : Vars.get ([] : Vars) "layout".toList = none := rfl
      rw [hnil]
      exact or_or_getD none _ _
    | some sep =>
      rw [hd] at h
      simp only [] at h ⊢
      cases hy : w.yamlUnmarshal (s.take sep) with
      | error err =>
        rw [hy] at h
        simp only [] at h ⊢
        have h2 : baseVars w path globals = v := congrArg (fun t => t.1) (run_ret_inj h)
        rw [← h2]
        unfold Vars.getD
        rw [baseVars_layout]
        have hnil : Vars.get ([] : Vars) "layout".toList = none := rfl
        rw [hnil]
        exact or_or_getD none _ _
      | ok hv =>
        rw [hy] at h
        simp only [] at h ⊢
        have h2 := congrArg (fun t => t.1) (run_ret_inj h)
        simp only [] at h2
        rw [← h2]
        have hne : ¬ "layout".toList = "url".toList := by decide
        have hgs := get_stripUrl (Vars.overlay (baseVars w path globals) hv) "url".toList
          "layout".toList
        rw [if_neg hne, Vars.get_overlay, baseVars_layout] at hgs
        have hgd : ∀ x : Vars, Vars.getD x "layout".toList
            = (Vars.get x "layout".toList).getD [] := fun _ => rfl
        rw [hgd, hgs]
        exact or_or_getD _ _ _

theorem layout_after_sets (v : Vars) (source html : Str) :
    Vars.getD (Vars.set (Vars.set v "source".toList source) "content".toList html)
      "layout".toList = Vars.getD v "layout".toList := by
  have h1 : ¬ "layout".toList = "content".toList := by decide
  have h2 : ¬ "layout".toList = "source".toList := by decide
  unfold Vars.getD
  rw [Vars.get_set, if_neg h1, Vars.get_set, if_neg h2]

theorem buildMarkdown_path (w : World) (path : Str) (vars v : Vars)
    (body source html : Str) (gev rev : List Event)
    (hg : getVars w path vars = ⟨gev, .ret (v, body, none)⟩)
    (hr : render w body v = ⟨rev, .ret (source, none)⟩)
    (hc : w.convert source = .ok html) :
    (∀ out, buildMarkdown w path (some out) vars
        = ⟨gev ++ (rev ++ .convert source ::
            (buildHTML w (w.filepathJoin w.ZSDIR (layoutOf w path vars)) (some out)
              (Vars.set (Vars.set v "source".toList source) "content".toList html)).events),
            (buildHTML w (w.filepathJoin w.ZSDIR (layoutOf w path vars)) (some out)
              (Vars.set (Vars.set v "source".toList source) "content".toList html)).res⟩) ∧
      (w.create (w.filepathJoin PUBDIR (renameExt path [] ".html".toList)) = none →
        buildMarkdown w path none vars
          = ⟨gev ++ (rev ++ .convert source ::
              .create (w.filepathJoin PUBDIR (renameExt path [] ".html".toList)) ::
              (buildHTML w (w.filepathJoin w.ZSDIR (layoutOf w path vars))
                (some (.file (w.filepathJoin PUBDIR (renameExt path [] ".html".toList))))
                (Vars.set (Vars.set v "source".toList source)
                  "content".toList html)).events),
              (buildHTML w (w.filepathJoin w.ZSDIR (layoutOf w path vars))
                (some (.file (w.filepathJoin PUBDIR (renameExt path [] ".html".toList))))
                (Vars.set (Vars.set v "source".toList source)
                  "content".toList html)).res⟩) := by
  have hl := layout_after_sets v source html
  rw [getVars_layout w path vars v body gev hg] at hl
  constructor
  · intro out
    unfold buildMarkdown
    simp only [bind, Run.bind, hg, hr, hc, emit, pure, hl, List.nil_append,
      List.append_nil, List.singleton_append]
  · intro hcreate
    unfold buildMarkdown
    simp only [bind, Run.bind, hg, hr, hc, hcreate, emit, pure, hl, List.nil_append,
      List.append_nil, List.singleton_append]

theorem extAux_scan (l rest acc : Str) (h : ∀ c ∈ l, c ≠ '.' ∧ c ≠ '/') :
    extAux (l ++ rest) acc = extAux rest (l.reverse ++ acc) := by
  induction l generalizing acc with
  | nil => rfl
  | cons a t ih =>
    have ha := h a (List.mem_cons_self a t)
    have ht : ∀ c ∈ t, c ≠ '.' ∧ c ≠ '/' := fun c hc => h c (List.mem_cons_of_mem a hc)
    have hstep : extAux (a :: t ++ rest) acc = extAux (t ++ rest) (a :: acc) := by
      simp only [List.cons_append, extAux, ha.1, ha.2, ↓reduceIte]
      rfl
    rw [hstep, ih (a :: acc) ht]
    simp

theorem filepathExt_suffix (stem e : Str) (h : ∀ c ∈ e, c ≠ '.' ∧ c ≠ '/') :
    filepathExt (stem ++ '.' :: e) = '.' :: e := by
  unfold filepathExt
  have hrev : (stem ++ '.' :: e).reverse = e.reverse ++ '.' :: stem.reverse := by simp
  rw [hrev, extAux_scan e.reverse _ [] (fun c hc => h c (List.mem_reverse.mp hc))]
  simp [extAux]

theorem buildMarkdown_failures (w : World) (path : Str) (sink : Option Writer)
    (vars : Vars) :
    (∀ (v : Vars) (body : Str) (gev : List Event) (err : GoError),
        getVars w path vars = ⟨gev, .ret (v, body, some err)⟩ →
        buildMarkdown w path sink vars = ⟨gev, .ret (some err)⟩) ∧
      (∀ (v : Vars) (body source : Str) (gev rev : List Event) (err : GoError),
        getVars w path vars = ⟨gev, .ret (v, body, none)⟩ →
        render w body v = ⟨rev, .ret (source, some err)⟩ →
        buildMarkdown w path sink vars = ⟨gev ++ rev, .ret (some err)⟩) ∧
      (∀ (v : Vars) (body source : Str) (gev rev : List Event) (err : GoError),
        getVars w path vars = ⟨gev, .ret (v, body, none)⟩ →
        render w body v = ⟨rev, .ret (source, none)⟩ →
        w.convert source = .error err →
        buildMarkdown w path sink vars
          = ⟨gev ++ (rev ++ [.convert source]), .ret (some err)⟩) := by
  refine ⟨?_, ?_, ?_⟩
  · intro v body gev err hg
    unfold buildMarkdown
    simp only [bind, Run.bind, hg, pure, List.append_nil]
  · intro v body source gev rev err hg hr
    unfold buildMarkdown
    simp only [bind, Run.bind, hg, hr, pure, List.append_nil]
  · intro v body source gev rev err hg hr hc
    unfold buildMarkdown
    simp only [bind, Run.bind, hg, hr, hc, emit, pure, List.append_nil]

/-- C17: `build` dispatches on the literal extension of the path. It takes the
markdown path exactly for `.md` and `.mkd`, the template path exactly for
`.html` and `.xml`, and the raw copy path for every other extension (`.txt`,
`.MD`, none), which only creates, chmods and copies: it resolves no variable
and expands no macro. In terms of the path itself: whatever precedes the
suffix, a path ending in `.md` or `.mkd` is built as markdown, one ending in
`.html` or `.xml` as a template, and one ending in `.txt` or `.MD` is copied.
For every `.md` or `.mkd` file, with or without front
matter, streamed to a sink or mirrored into the publish directory, the
markdown path is: the events of `getVars`, those of `render` on the body, the
conversion, the creation of the mirrored `.html` file when there is no sink,
and then `buildHTML` on the layout in the support directory with the variables
enriched by `source` and `content`; the layout is the one the header sets, else
the one the globals set, else `layout.html`. An error of `getVars`, of `render`
or of the conversion ends the markdown path there and is returned. -/
theorem build_dispatch (w : World) (path : Str) (sink : Option Writer) (vars : Vars) :
    (filepathExt path = ".md".toList ∨ filepathExt path = ".mkd".toList →
        build w path sink vars = buildMarkdown w path sink vars) ∧
      (filepathExt path = ".html".toList ∨ filepathExt path = ".xml".toList →
        build w path sink vars = buildHTML w path sink vars) ∧
      (filepathExt path ≠ ".md".toList ∧ filepathExt path ≠ ".mkd".toList ∧
          filepathExt path ≠ ".html".toList ∧ filepathExt path ≠ ".xml".toList →
        build w path sink vars = buildRaw w path sink ∧
        ∀ ev ∈ (build w path sink vars).events,
          (∃ p, ev = .create p) ∨ (∃ p m, ev = .chmod p m) ∨ (∃ p o, ev = .copy p o)) ∧
      (filepathExt path = ".md".toList ∨ filepathExt path = ".mkd".toList →
        ∀ (v : Vars) (body source html : Str) (gev rev : List Event),
          getVars w path vars = ⟨gev, .ret (v, body, none)⟩ →
          render w body v = ⟨rev, .ret (source, none)⟩ →
          w.convert source = .ok html →
          (∀ out, build w path (some out) vars
            = ⟨gev ++ (rev ++ .convert source ::
                (buildHTML w (w.filepathJoin w.ZSDIR (layoutOf w path vars)) (some out)
                  (Vars.set (Vars.set v "source".toList source)
                    "content".toList html)).events),
                (buildHTML w (w.filepathJoin w.ZSDIR (layoutOf w path vars)) (some out)
                  (Vars.set (Vars.set v "source".toList source)
                    "content".toList html)).res⟩) ∧
          (w.create (w.filepathJoin PUBDIR (renameExt path [] ".html".toList)) = none →
            build w path none vars
              = ⟨gev ++ (rev ++ .convert source ::
                  .create (w.filepathJoin PUBDIR (renameExt path [] ".html".toList)) ::
                  (buildHTML w (w.filepathJoin w.ZSDIR (layoutOf w path vars))
                    (some (.file (w.filepathJoin PUBDIR
                      (renameExt path [] ".html".toList))))
                    (Vars.set (Vars.set v "source".toList source)
                      "content".toList html)).events),
                  (buildHTML w (w.filepathJoin w.ZSDIR (layoutOf w path vars))
                    (some (.file (w.filepathJoin PUBDIR
                      (renameExt path [] ".html".toList))))
                    (Vars.set (Vars.set v "source".toList source)
                      "content".toList html)).res⟩)) ∧
      (Vars.get (headerOf w path) "layout".toList = none →
        Vars.get vars "layout".toList = none →
        layoutOf w path vars = "layout.html".toList) ∧
      (filepathExt path = ".md".toList ∨ filepathExt path = ".mkd".toList →
        (∀ (v : Vars) (body : Str) (gev : List Event) (err : GoError),
          getVars w path vars = ⟨gev, .ret (v, body, some err)⟩ →
          build w path sink vars = ⟨gev, .ret (some err)⟩) ∧
        (∀ (v : Vars) (body source : Str) (gev rev : List Event) (err : GoError),
          getVars w path vars = ⟨gev, .ret (v, body, none)⟩ →
          render w body v = ⟨rev, .ret (source, some err)⟩ →
          build w path sink vars = ⟨gev ++ rev, .ret (some err)⟩) ∧
        (∀ (v : Vars) (body source : Str) (gev rev : List Event) (err : GoError),
          getVars w path vars = ⟨gev, .ret (v, body, none)⟩ →
          render w body v = ⟨rev, .ret (source, none)⟩ →
          w.convert source = .error err →
          build w path sink vars
            = ⟨gev ++ (rev ++ [.convert source]), .ret (some err)⟩)) ∧
      (∀ stem : Str,
        build w (stem ++ ".md".toList) sink vars
          = buildMarkdown w (stem ++ ".md".toList) sink vars ∧
        build w (stem ++ ".mkd".toList) sink vars
          = buildMarkdown w (stem ++ ".mkd".toList) sink vars ∧
        build w (stem ++ ".html".toList) sink vars
          = buildHTML w (stem ++ ".html".toList) sink vars ∧
        build w (stem ++ ".xml".toList) sink vars
          = buildHTML w (stem ++ ".xml".toList) sink vars ∧
        build w (stem ++ ".txt".toList) sink vars = buildRaw w (stem ++ ".txt".toList) sink ∧
        build w (stem ++ ".MD".toList) sink vars = buildRaw w (stem ++ ".MD".toList) sink) := by
  have hmdEq : filepathExt path = ".md".toList ∨ filepathExt path = ".mkd".toList →
      ∀ sk, build w path sk vars = buildMarkdown w path sk vars := by
    intro h sk
    unfold build
    simp only [h, ↓reduceIte]
  refine ⟨fun h => hmdEq h sink, ?_, ?_, ?_, ?_, ?_, ?_⟩
  · intro h
    have hmd : ¬ (filepathExt path = ".md".toList ∨ filepathExt path = ".mkd".toList) := by
      rcases h with h | h <;> rw [h] <;> decide
    unfold build
    simp only [hmd, h, ↓reduceIte]
  · rintro ⟨h1, h2, h3, h4⟩
    have hb : build w path sink vars = buildRaw w path sink := by
      unfold build
      simp only [h1, h2, h3, h4, or_self, ↓reduceIte]
    refine ⟨hb, ?_⟩
    rw [hb]
    exact buildRaw_events w path sink
  · intro h v body source html gev rev hg hr hc
    obtain ⟨p1, p2⟩ := buildMarkdown_path w path vars v body source html gev rev hg hr hc
    refine ⟨fun out => ?_, fun hcreate => ?_⟩
    · rw [hmdEq h (some out)]
      exact p1 out
    · rw [hmdEq h none]
      exact p2 hcreate
  · intro h1 h2
    unfold layoutOf
    rw [h1, h2]
    rfl
  · intro h
    rw [hmdEq h sink]
    exact buildMarkdown_failures w path sink vars
  · intro stem
    have e1 : filepathExt (stem ++ ".md".toList) = ".md".toList :=
      filepathExt_suffix stem "md".toList (by decide)
    have e2 : filepathExt (stem ++ ".mkd".toList) = ".mkd".toList :=
      filepathExt_suffix stem "mkd".toList (by decide)
    have e3 : filepathExt (stem ++ ".html".toList) = ".html".toList :=
      filepathExt_suffix stem "html".toList (by decide)
    have e4 : filepathExt (stem ++ ".xml".toList) = ".xml".toList :=
      filepathExt_suffix stem "xml".toList (by decide)
    have e5 : filepathExt (stem ++ ".txt".toList) = ".txt".toList :=
      filepathExt_suffix stem "txt".toList (by decide)
    have e6 : filepathExt (stem ++ ".MD".toList) = ".MD".toList :=
      filepathExt_suffix stem "MD".toList (by decide)
    refine ⟨?_, ?_, ?_, ?_, ?_, ?_⟩
    · unfold build
      rw [e1]
      rfl
    · unfold build
      rw [e2]
      rfl
    · unfold build
      rw [e3]
      rfl
    · unfold build
      rw [e4]
      rfl
    · unfold build
      rw [e5]
      rfl
    · unfold build
      rw [e6]
      rfl

theorem build_dispatch_witness :
    build world0 "a.mkd".toList none [] = buildMarkdown world0 "a.mkd".toList none [] ∧
      build world0 "feed.xml".toList none [] = buildHTML world0 "feed.xml".toList none [] ∧
      build world0 "a.txt".toList none [] = buildRaw world0 "a.txt".toList none ∧
      build world0 "a.MD".toList none [] = buildRaw world0 "a.MD".toList none ∧
      build world0 "README".toList none [] = buildRaw world0 "README".toList none ∧
      layoutOf (worldWithHeader "a.md".toList "layout: post.html\n---\nhi".toList
          "layout: post.html".toList [("layout".toList, "post.html".toList)])
          "a.md".toList [] = "post.html".toList ∧
      build (worldWithHeader "a.md".toList "layout: post.html\n---\nhi".toList
          "layout: post.html".toList [("layout".toList, "post.html".toList)])
          "a.md".toList none []
        = ⟨[] ++ ([] ++ .convert "hi".toList :: .create ".pub/a.html".toList ::
            (buildHTML (worldWithHeader "a.md".toList "layout: post.html\n---\nhi".toList
                "layout: post.html".toList [("layout".toList, "post.html".toList)])
              ".zs/post.html".toList (some (.file ".pub/a.html".toList))
              (Vars.set (Vars.set (Vars.overlay (baseVars world0 "a.md".toList [])
                [("layout".toList, "post.html".toList)]) "source".toList "hi".toList)
                "content".toList "hi".toList)).events),
            (buildHTML (worldWithHeader "a.md".toList "layout: post.html\n---\nhi".toList
                "layout: post.html".toList [("layout".toList, "post.html".toList)])
              ".zs/post.html".toList (some (.file ".pub/a.html".toList))
              (Vars.set (Vars.set (Vars.overlay (baseVars world0 "a.md".toList [])
                [("layout".toList, "post.html".toList)]) "source".toList "hi".toList)
                "content".toList "hi".toList)).res⟩ ∧
      layoutOf (worldWithFile "a.md".toList "hello".toList) "a.md".toList []
        = "layout.html".toList :=
  ⟨(build_dispatch world0 "a.mkd".toList none []).1 (by decide),
    (build_dispatch world0 "feed.xml".toList none []).2.1 (by decide),
    ((build_dispatch world0 "a.txt".toList none []).2.2.1 (by decide)).1,
    ((build_dispatch world0 "a.MD".toList none []).2.2.1 (by decide)).1,
    ((build_dispatch world0 "README".toList none []).2.2.1 (by decide)).1,
    by decide,
    ((build_dispatch (worldWithHeader "a.md".toList "layout: post.html\n---\nhi".toList
        "layout: post.html".toList [("layout".toList, "post.html".toList)])
        "a.md".toList none []).2.2.2.1 (by decide)
      (Vars.overlay (baseVars world0 "a.md".toList [])
        [("layout".toList, "post.html".toList)])
      "hi".toList "hi".toList "hi".toList [] [] (by rfl) (by decide) (by rfl)).2 (by rfl),
    (build_dispatch (worldWithFile "a.md".toList "hello".toList) "a.md".toList none
      []).2.2.2.2.1 (by decide) (by decide)⟩

/-! ## No build line inside a build -/

theorem quiet_pure {α : Type} (a : α) : Quiet (pure a : Run α) := by
  intro e he
  simp [pure] at he

theorem quiet_panic {α : Type} (msg : Str) : Quiet (goPanic msg : Run α) := by
  intro e he
  simp [goPanic] at he

theorem quiet_emit (ev : Event) (h : buildLog ev = none) : Quiet (emit ev) := by
  intro e he
  simp only [emit, List.mem_singleton] at he
  rw [he]
  exact h

theorem quiet_bind {α β : Type} (m : Run α) (f : α → Run β) (hm : Quiet m)
    (hf : ∀ a, Quiet (f a)) : Quiet (m >>= f) := by
  intro e he
  have hb : (m >>= f) = Run.bind m f := rfl
  rw [hb] at he
  unfold Run.bind at he
  cases hres : m.res with
  | ret a =>
    simp only [hres, List.mem_append] at he
    rcases he with h | h
    · exact hm e h
    · exact hf a e h
  | panic msg =>
    simp only [hres] at he
    exact hm e he
  | outOfFuel =>
    simp only [hres] at he
    exact hm e he

theorem run_quiet (w : World) (vars : Vars) (cmd : Str) (args : List Str) :
    Quiet (run w vars cmd args) := by
  unfold run
  split
  · exact quiet_pure _
  · simp only []
    apply quiet_bind
    · exact quiet_emit _ rfl
    · intro _
      split
      · apply quiet_bind
        · exact quiet_emit _ (by simp [buildLog])
        · intro _
          apply quiet_bind
          · exact quiet_emit _ rfl
          · intro _
            exact quiet_pure _
      · exact quiet_pure _

theorem getVars_quiet (w : World) (path : Str) (globals : Vars) :
    Quiet (getVars w path globals) := by
  unfold getVars
  split
  · apply quiet_bind
    · exact quiet_emit _ rfl
    · intro _
      exact quiet_pure _
  · simp only []
    split
    · exact quiet_pure _
    · split
      · apply quiet_bind
        · exact quiet_emit _ (by simp [buildLog])
        · intro _
          apply quiet_bind
          · exact quiet_emit _ rfl
          · intro _
            exact quiet_pure _
      · exact quiet_pure _

theorem renderLoop_quiet (w : World) (vars : Vars) :
    ∀ (fuel : Nat) (s out : Str), Quiet (renderLoop w vars fuel s out) := by
  intro fuel
  induction fuel with
  | zero =>
    intro s out e he
    simp [renderLoop] at he
  | succ n ih =>
    intro s out
    simp only [renderLoop]
    split
    · exact quiet_pure _
    · split
      · apply quiet_bind
        · exact quiet_emit _ rfl
        · intro _
          exact quiet_pure _
      · split
        · exact quiet_panic _
        · split
          · exact quiet_panic _
          · split
            · exact ih _ _
            · apply quiet_bind
              · exact quiet_emit _ rfl
              · intro _
                split
                · apply quiet_bind
                  · exact run_quiet w vars _ _
                  · intro r
                    split
                    · exact ih _ _
                    · apply quiet_bind
                      · exact quiet_emit _ (by simp [buildLog])
                      · intro _
                        exact ih _ _
                · split
                  · exact ih _ _
                  · exact ih _ _

theorem render_quiet (w : World) (s : Str) (vars : Vars) : Quiet (render w s vars) :=
  renderLoop_quiet w vars _ _ _

theorem buildHTML_quiet (w : World) (path : Str) (sink : Option Writer) (vars : Vars) :
    Quiet (buildHTML w path sink vars) := by
  unfold buildHTML
  apply quiet_bind
  · exact getVars_quiet w path vars
  · intro r
    try simp only []
    split
    · exact quiet_pure _
    · apply quiet_bind
      · exact render_quiet w _ _
      · intro rr
        split
        · exact quiet_pure _
        · try simp only []
          split
          · exact quiet_pure _
          · have hexec : ∀ out : Writer, Quiet (do
                emit (.templateExecute rr.1 out vars)
                match w.templateExecute rr.1 vars with
                | .error err => pure (some err)
                | .ok _ => (pure none : Run (Option GoError))) := by
              intro out
              apply quiet_bind
              · exact quiet_emit _ rfl
              · intro _
                split
                · exact quiet_pure _
                · exact quiet_pure _
            split
            · exact hexec _
            · try simp only []
              split
              · exact quiet_pure _
              · apply quiet_bind
                · exact quiet_emit _ rfl
                · intro _
                  exact hexec _

theorem buildMarkdown_quiet (w : World) (path : Str) (sink : Option Writer) (vars : Vars) :
    Quiet (buildMarkdown w path sink vars) := by
  unfold buildMarkdown
  apply quiet_bind
  · exact getVars_quiet w path vars
  · intro r
    try simp only []
    split
    · exact quiet_pure _
    · apply quiet_bind
      · exact render_quiet w _ _
      · intro rr
        split
        · exact quiet_pure _
        · try simp only []
          apply quiet_bind
          · exact quiet_emit _ rfl
          · intro _
            split
            · exact quiet_pure _
            · try simp only []
              split
              · exact buildHTML_quiet w _ _ _
              · try simp only []
                split
                · exact quiet_pure _
                · apply quiet_bind
                  · exact quiet_emit _ rfl
                  · intro _
                    exact buildHTML_quiet w _ _ _

theorem buildRaw_quiet (w : World) (path : Str) (sink : Option Writer) :
    Quiet (buildRaw w path sink) := by
  intro e he
  rcases buildRaw_events w path sink e he with ⟨p, h⟩ | ⟨p, m, h⟩ | ⟨p, o, h⟩ <;>
    rw [h] <;> rfl

theorem build_quiet (w : World) (path : Str) (sink : Option Writer) (vars : Vars) :
    Quiet (build w path sink vars) := by
  unfold build
  try simp only []
  split
  · exact buildMarkdown_quiet w path sink vars
  · split
    · exact buildHTML_quiet w path sink vars
    · exact buildRaw_quiet w path sink

/-! ## Which entries a walk builds -/

theorem builds_append (a b : List Event) : builds (a ++ b) = builds a ++ builds b := by
  simp [builds, List.filterMap_append]

theorem builds_cons (e : Event) (l : List Event) :
    builds (e :: l) = (match buildLog e with | some p => [p] | none => []) ++ builds l := by
  unfold builds
  rw [List.filterMap_cons]
  cases buildLog e <;> rfl

theorem builds_of_quiet {α : Type} (r : Run α) (h : Quiet r) : builds r.events = [] := by
  unfold builds
  rw [List.filterMap_eq_nil_iff]
  exact h

theorem walkFn_step (w : World) (vars : Vars) (st : WalkState) (e : Entry)
    (hwf : e.err = none → e.info ≠ none)
    (herr : e.err ≠ none → ∀ i, e.info = some i → i.isDir = true)
    (hsup : isSupport w e.path = true →
      ∃ i, e.info = some i ∧ ¬ i.modTime > st.lastModified)
    (hbuild : isNewerFile st.lastModified e = true →
      (build w e.path none vars).res = .ret none) :
    ∃ st', (walkFn w vars st e).res = .ret (st', none) ∧
      st'.lastModified = st.lastModified ∧
      builds (walkFn w vars st e).events
        = if isNewerFile st.lastModified e = true then [e.path] else [] := by
  have hgate : (if (decide (filepathBase e.path = w.ZSIGNORE)
        || decide (w.filepathDir e.path = w.ZSDIR)) = true
      then e.info.map (fun i => decide (i.modTime > st.lastModified))
      else some false) = some false := by
    by_cases hs : isSupport w e.path = true
    · obtain ⟨i, hi, hnew⟩ := hsup hs
      unfold isSupport at hs
      rw [if_pos hs, hi]
      simp [hnew]
    · unfold isSupport at hs
      rw [if_neg hs]
  unfold walkFn
  simp only [hgate]
  cases he : e.err with
  | some err =>
    have hnf : isNewerFile st.lastModified e = false := by
      unfold isNewerFile
      cases hi : e.info with
      | none => rfl
      | some i =>
        have hd := herr (by rw [he]; simp) i hi
        simp [hd]
    refine ⟨st, rfl, rfl, ?_⟩
    rw [hnf]
    simp only [bind, Run.bind, emit, pure, List.append_nil, Bool.false_eq_true, ↓reduceIte]
    rfl
  | none =>
    cases hi : e.info with
    | none => exact absurd hi (hwf he)
    | some info =>
      simp only []
      cases hd : info.isDir with
      | true =>
        have hnf : isNewerFile st.lastModified e = false := by
          unfold isNewerFile
          simp [hi, hd]
        refine ⟨st, rfl, rfl, ?_⟩
        rw [hnf]
        simp only [bind, Run.bind, emit, pure, List.append_nil, Bool.false_eq_true, ↓reduceIte]
        rfl
      | false =>
        by_cases hnew : info.modTime > st.lastModified
        · have hnf : isNewerFile st.lastModified e = true := by
            unfold isNewerFile
            simp [hi, hd, hnew]
          have hb := hbuild hnf
          have hq := builds_of_quiet _ (build_quiet w e.path none vars)
          have hlog : buildLog (.log "build: %s".toList [e.path]) = some e.path := by
            simp [buildLog]
          rw [hnf]
          simp only [hnew, Bool.false_eq_true, ↓reduceIte]
          cases hm : st.modified with
          | true =>
            refine ⟨st, ?_, rfl, ?_⟩
            · simp only [Bool.not_true, Bool.false_eq_true, ↓reduceIte, bind, pure, Run.bind,
                emit, hb]
            · simp only [Bool.not_true, Bool.false_eq_true, ↓reduceIte, bind, pure, Run.bind,
                emit, hb, List.nil_append, List.append_nil, List.singleton_append,
                builds_cons, hlog, hq]
          | false =>
            cases hl : w.lookPath "prehook".toList with
            | false =>
              refine ⟨st, ?_, rfl, ?_⟩
              · simp only [Bool.not_false, ↓reduceIte, bind, pure, Run.bind, emit, hb, hl,
                  Bool.false_eq_true]
              · simp only [Bool.not_false, ↓reduceIte, bind, pure, Run.bind, emit, hb, hl,
                  Bool.false_eq_true, List.nil_append, List.append_nil,
                  List.singleton_append, List.cons_append, builds_cons, hlog, hq]
                rfl
            | true =>
              obtain ⟨r, hr⟩ := run_returns w vars "prehook".toList []
              have hrq := builds_of_quiet _ (run_quiet w vars "prehook".toList [])
              cases hr2 : r.2 with
              | none =>
                refine ⟨{ st with modified := true }, ?_, rfl, ?_⟩
                · simp only [Bool.not_false, ↓reduceIte, bind, pure, Run.bind, emit, hb, hl,
                    hr, hr2]
                · simp only [Bool.not_false, ↓reduceIte, bind, pure, Run.bind, emit, hb, hl,
                    hr, hr2, List.nil_append, List.append_nil, List.singleton_append,
                    List.cons_append, builds_cons, builds_append, hlog, hq, hrq]
                  rfl
              | some e2 =>
                refine ⟨{ st with modified := true }, ?_, rfl, ?_⟩
                · simp only [Bool.not_false, ↓reduceIte, bind, pure, Run.bind, emit, hb, hl,
                    hr, hr2]
                · simp only [Bool.not_false, ↓reduceIte, bind, pure, Run.bind, emit, hb, hl,
                    hr, hr2, List.nil_append, List.append_nil, List.singleton_append,
                    List.cons_append, builds_cons, builds_append, hlog, hq, hrq]
                  rfl
        · have hnf : isNewerFile st.lastModified e = false := by
            unfold isNewerFile
            simp [hi, hd, hnew]
          refine ⟨st, ?_, rfl, ?_⟩
          · simp only [hnew, Bool.false_eq_true, ↓reduceIte]
            rfl
          · rw [hnf]
            simp only [hnew, Bool.false_eq_true, ↓reduceIte]
            rfl

theorem walkFn_newer_file (w : World) (vars : Vars) (st : WalkState) (e : Entry)
    (info : FileInfo) (hsup : isSupport w e.path = false) (herr : e.err = none)
    (hinfo : e.info = some info) (hfile : info.isDir = false)
    (hnew : info.modTime > st.lastModified) :
    walkFn w vars st e = buildEntry w vars st e.path := by
  unfold isSupport at hsup
  unfold walkFn buildEntry prehookStep
  simp only [hsup, herr, hinfo, hfile, hnew, Bool.false_eq_true, ↓reduceIte]

theorem walk_builds (w : World) (vars : Vars) (entries : List Entry) :
    ∀ (st : WalkState),
      (∀ e ∈ entries, e.err = none → e.info ≠ none) →
      (∀ e ∈ entries, e.err ≠ none → ∀ i, e.info = some i → i.isDir = true) →
      (∀ e ∈ entries, isSupport w e.path = true →
        ∃ i, e.info = some i ∧ ¬ i.modTime > st.lastModified) →
      (∀ e ∈ entries, isNewerFile st.lastModified e = true →
        (build w e.path none vars).res = .ret none) →
      ∃ st', (walk w vars st entries).res = .ret (st', none) ∧
        st'.lastModified = st.lastModified ∧
        builds (walk w vars st entries).events
          = (entries.filter (isNewerFile st.lastModified)).map (fun e => e.path) := by
  induction entries with
  | nil =>
    intro st _ _ _ _
    exact ⟨st, rfl, rfl, rfl⟩
  | cons a rest ih =>
    intro st hwf herr hsup hbuild
    obtain ⟨sa, hres, hlm, hb⟩ := walkFn_step w vars st a
      (hwf a (List.mem_cons_self a rest)) (herr a (List.mem_cons_self a rest))
      (hsup a (List.mem_cons_self a rest)) (hbuild a (List.mem_cons_self a rest))
    obtain ⟨st', hres', hlm', hb'⟩ := ih sa
      (fun e he => hwf e (List.mem_cons_of_mem a he))
      (fun e he => herr e (List.mem_cons_of_mem a he))
      (fun e he => by rw [hlm]; exact hsup e (List.mem_cons_of_mem a he))
      (fun e he => by rw [hlm]; exact hbuild e (List.mem_cons_of_mem a he))
    refine ⟨st', ?_, ?_, ?_⟩
    · simp only [walk_cons, Run.bind, hres, hres']
    · rw [hlm', hlm]
    · simp only [walk_cons, Run.bind, hres, builds_append, hb, hb', hlm, List.filter_cons]
      cases isNewerFile st.lastModified a <;> simp

/-- C13: take one walk over entries as `filepath.Walk` reports them (an entry
without error has its file info; an entry with an error has none or is a
directory), in which no entry triggers the reset (each ignore-file or
support-directory entry has file info not newer than the watermark) and no
build fails. Then the walk returns no error and leaves the watermark
unchanged, the paths handed to `build` are exactly those of the non-directory
entries whose modification time is strictly after the watermark, in walk order
and each once, and for each of them the callback is the `prehook` block, the
`build: %s` line and `build(path, nil, vars)`: no explicit sink. -/
theorem walk_builds_exactly_newer_files (w : World) (vars : Vars) (st : WalkState)
    (entries : List Entry)
    (hwf : ∀ e ∈ entries, e.err = none → e.info ≠ none)
    (herr : ∀ e ∈ entries, e.err ≠ none → ∀ i, e.info = some i → i.isDir = true)
    (hsup : ∀ e ∈ entries, isSupport w e.path = true →
      ∃ i, e.info = some i ∧ ¬ i.modTime > st.lastModified)
    (hbuild : ∀ e ∈ entries, isNewerFile st.lastModified e = true →
      (build w e.path none vars).res = .ret none) :
    (∃ st', (walk w vars st entries).res = .ret (st', none) ∧
        st'.lastModified = st.lastModified) ∧
      builds (walk w vars st entries).events
        = (entries.filter (isNewerFile st.lastModified)).map (fun e => e.path) ∧
      ∀ e ∈ entries, isNewerFile st.lastModified e = true →
        ∀ st1 : WalkState, st1.lastModified = st.lastModified →
          walkFn w vars st1 e = buildEntry w vars st1 e.path := by
  obtain ⟨st', h1, h2, h3⟩ := walk_builds w vars entries st hwf herr hsup hbuild
  refine ⟨⟨st', h1, h2⟩, h3, ?_⟩
  intro e he hnf st1 hst1
  unfold isNewerFile at hnf
  cases hi : e.info with
  | none => rw [hi] at hnf; exact absurd hnf (by simp)
  | some info =>
    rw [hi] at hnf
    simp only [Bool.and_eq_true, Bool.not_eq_true', decide_eq_true_eq] at hnf
    obtain ⟨hd, hnew⟩ := hnf
    have hns : isSupport w e.path = false := by
      cases hs : isSupport w e.path with
      | false => rfl
      | true =>
        obtain ⟨i, hi2, hold⟩ := hsup e he hs
        rw [hi] at hi2
        injection hi2 with hi2
        rw [← hi2] at hold
        exact absurd hnew hold
    have hne : e.err = none := by
      cases hee : e.err with
      | none => rfl
      | some err =>
        have := herr e he (by rw [hee]; simp) info hi
        rw [hd] at this
        exact absurd this (by simp)
    exact walkFn_newer_file w vars st1 e info hns hne hi hd (by rw [hst1]; exact hnew)

theorem walk_builds_exactly_newer_files_witness :
    (∃ st', (walk worldRawOnly [] ⟨10, false⟩
          [fileEntry "new.txt".toList 15, fileEntry "old.txt".toList 5]).res
          = .ret (st', none) ∧ st'.lastModified = 10) ∧
      builds (walk worldRawOnly [] ⟨10, false⟩
          [fileEntry "new.txt".toList 15, fileEntry "old.txt".toList 5]).events
        = ["new.txt".toList] ∧
      ∀ e ∈ [fileEntry "new.txt".toList 15, fileEntry "old.txt".toList 5],
        isNewerFile 10 e = true →
        ∀ st1 : WalkState, st1.lastModified = 10 →
          walkFn worldRawOnly [] st1 e = buildEntry worldRawOnly [] st1 e.path :=
  walk_builds_exactly_newer_files worldRawOnly [] ⟨10, false⟩
    [fileEntry "new.txt".toList 15, fileEntry "old.txt".toList 5]
    (by decide)
    (by
      intro e he herr
      simp only [List.mem_cons, List.mem_singleton, List.not_mem_nil, or_false] at he
      rcases he with h | h <;> rw [h] at herr <;> exact absurd rfl herr)
    (by
      intro e he hs
      simp only [List.mem_cons, List.mem_singleton, List.not_mem_nil, or_false] at he
      rcases he with h | h <;> rw [h] at hs <;> exact absurd hs (by decide))
    (by decide)

/-! ## The watermark across walks -/

theorem Run.bind_events_of_nil {α β : Type} (m : Run α) (f : α → Run β)
    (hf : ∀ a, (f a).events = []) : (Run.bind m f).events = m.events := by
  unfold Run.bind
  cases m.res with
  | ret a => simp [hf a]
  | panic msg => rfl
  | outOfFuel => rfl

theorem builds_bind_quiet {α β : Type} (m : Run α) (f : α → Run β)
    (hf : ∀ a, Quiet (f a)) : builds (m >>= f).events = builds m.events := by
  have hb : (m >>= f) = Run.bind m f := rfl
  rw [hb]
  unfold Run.bind
  cases m.res with
  | ret a =>
    simp only [builds_append, builds_of_quiet _ (hf a), List.append_nil]
  | panic msg => rfl
  | outOfFuel => rfl

theorem builds_emit_bind {β : Type} (ev : Event) (f : Unit → Run β)
    (h : buildLog ev = none) : builds (emit ev >>= f).events = builds (f ()).events := by
  have hb : (emit ev >>= f) = Run.bind (emit ev) f := rfl
  rw [hb]
  simp only [Run.bind, emit, List.singleton_append, builds_cons, h, List.nil_append]

theorem tick_builds (w : World) (vars : Vars) (st : WalkState) (entries : List Entry) :
    builds (tick w vars st entries).events = builds (walk w vars st entries).events := by
  unfold tick
  rw [builds_emit_bind (.mkdir PUBDIR) _ rfl]
  apply builds_bind_quiet
  intro r
  apply quiet_bind
  · split
    · apply quiet_bind
      · exact quiet_emit _ rfl
      · intro _
        split
        · apply quiet_bind
          · exact run_quiet w vars _ _
          · intro p
            simp only []
            split
            · apply quiet_bind
              · exact quiet_emit _ (by simp [buildLog])
              · intro _
                exact quiet_pure _
            · apply quiet_bind
              · exact quiet_pure _
              · intro _
                exact quiet_pure _
        · exact quiet_pure _
    · exact quiet_pure _
  · intro _
    exact quiet_pure _

theorem walkFn_reset (w : World) (vars : Vars) (st : WalkState) (sup : Entry)
    (info : FileInfo) (hsup : isSupport w sup.path = true) (hinfo : sup.info = some info)
    (hnew : info.modTime > st.lastModified) :
    walkFn w vars st sup = ⟨[], .ret ({ st with lastModified := 0 }, none)⟩ := by
  unfold isSupport at hsup
  unfold walkFn
  simp only [hsup, hinfo, hnew, ↓reduceIte, Option.map_some', decide_True]
  rfl

theorem buildAllLoop_last_tick_events (vars : Vars) (st : WalkState) (t : Tick) :
    (buildAllLoop vars true st [t]).events = (tick t.world vars st t.entries).events := by
  have h : buildAllLoop vars true st [t]
      = Run.bind (tick t.world vars st t.entries) (fun r =>
          if (!true) = true then pure r.2
          else buildAllLoop vars true { r.1 with lastModified := t.now } []) := rfl
  rw [h]
  apply Run.bind_events_of_nil
  intro a
  rfl

theorem walkFn_step_epoch (w : World) (vars : Vars) (st : WalkState) (e : Entry)
    (hst : st.lastModified = 0)
    (hwf : e.err = none → e.info ≠ none)
    (herr : e.err ≠ none → ∀ i, e.info = some i → i.isDir = true)
    (hsupinfo : isSupport w e.path = true → e.info ≠ none)
    (hbuild : isBuiltAfterReset w e = true → (build w e.path none vars).res = .ret none) :
    ∃ st', (walkFn w vars st e).res = .ret (st', none) ∧ st'.lastModified = 0 ∧
      builds (walkFn w vars st e).events
        = if isBuiltAfterReset w e = true then [e.path] else [] := by
  cases hs : isSupport w e.path with
  | true =>
    have hnb : isBuiltAfterReset w e = false := by
      unfold isBuiltAfterReset
      rw [hs]
      simp
    rw [hnb]
    cases hi : e.info with
    | none => exact absurd hi (hsupinfo hs)
    | some info =>
      by_cases hn : info.modTime > st.lastModified
      · rw [walkFn_reset w vars st e info hs hi hn]
        exact ⟨{ st with lastModified := 0 }, rfl, rfl, rfl⟩
      · have hnf : isNewerFile st.lastModified e = false := by
          unfold isNewerFile
          rw [hi]
          simp [hn]
        obtain ⟨st', h1, h2, h3⟩ := walkFn_step w vars st e hwf herr
          (fun _ => ⟨info, hi, hn⟩) (fun h => by rw [hnf] at h; exact absurd h (by simp))
        rw [hnf] at h3
        exact ⟨st', h1, by rw [h2, hst], h3⟩
  | false =>
    have hb : isBuiltAfterReset w e = isNewerFile st.lastModified e := by
      unfold isBuiltAfterReset
      rw [hs, hst]
      simp
    obtain ⟨st', h1, h2, h3⟩ := walkFn_step w vars st e hwf herr
      (fun h => by rw [hs] at h; exact absurd h (by simp))
      (fun h => hbuild (by rw [hb]; exact h))
    rw [hb]
    exact ⟨st', h1, by rw [h2, hst], h3⟩

theorem walk_builds_epoch (w : World) (vars : Vars) (entries : List Entry) :
    ∀ (st : WalkState), st.lastModified = 0 →
      (∀ e ∈ entries, e.err = none → e.info ≠ none) →
      (∀ e ∈ entries, e.err ≠ none → ∀ i, e.info = some i → i.isDir = true) →
      (∀ e ∈ entries, isSupport w e.path = true → e.info ≠ none) →
      (∀ e ∈ entries, isBuiltAfterReset w e = true →
        (build w e.path none vars).res = .ret none) →
      ∃ st', (walk w vars st entries).res = .ret (st', none) ∧ st'.lastModified = 0 ∧
        builds (walk w vars st entries).events
          = (entries.filter (isBuiltAfterReset w)).map (fun e => e.path) := by
  induction entries with
  | nil =>
    intro st hst _ _ _ _
    exact ⟨st, rfl, hst, rfl⟩
  | cons a rest ih =>
    intro st hst hwf herr hsup hbuild
    obtain ⟨sa, hres, hlm, hb⟩ := walkFn_step_epoch w vars st a hst
      (hwf a (List.mem_cons_self a rest)) (herr a (List.mem_cons_self a rest))
      (hsup a (List.mem_cons_self a rest)) (hbuild a (List.mem_cons_self a rest))
    obtain ⟨st', hres', hlm', hb'⟩ := ih sa hlm
      (fun e he => hwf e (List.mem_cons_of_mem a he))
      (fun e he => herr e (List.mem_cons_of_mem a he))
      (fun e he => hsup e (List.mem_cons_of_mem a he))
      (fun e he => hbuild e (List.mem_cons_of_mem a he))
    refine ⟨st', ?_, hlm', ?_⟩
    · simp only [walk_cons, Run.bind, hres, hres']
    · simp only [walk_cons, Run.bind, hres, builds_append, hb, hb', List.filter_cons]
      cases isBuiltAfterReset w a <;> simp

/-- C12, as the code has it. The reset lasts for the rest of the same walk: when
an ignore-file or support-directory entry is newer than the watermark, the
walk goes on over the later entries with the watermark at the epoch (the entry
itself is not built), and, when no build fails, it returns no error and the
entries it builds from there on are exactly the files modified after the epoch
that are neither the ignore file nor in the support directory, in walk order
(the later entries are as `filepath.Walk` reports them, and those of the
ignore/support set have their file info). The reset does not reach the next
walk: the watch loop sets the watermark to `time.Now()` after each walk, so
whatever the first walk did, the second walk (in which no entry triggers a
reset and no build fails) builds exactly the files modified after that
time. -/
theorem watermark_reset_lasts_one_walk (vars : Vars) (st : WalkState) (t1 t2 : Tick)
    (r1 : WalkState × Option GoError)
    (h1 : (tick t1.world vars st t1.entries).res = .ret r1)
    (hwf : ∀ e ∈ t2.entries, e.err = none → e.info ≠ none)
    (herr : ∀ e ∈ t2.entries, e.err ≠ none → ∀ i, e.info = some i → i.isDir = true)
    (hsup : ∀ e ∈ t2.entries, isSupport t2.world e.path = true →
      ∃ i, e.info = some i ∧ ¬ i.modTime > t1.now)
    (hbuild : ∀ e ∈ t2.entries, isNewerFile t1.now e = true →
      (build t2.world e.path none vars).res = .ret none) :
    (∀ (w : World) (st' : WalkState) (sup : Entry) (info : FileInfo) (rest : List Entry),
        isSupport w sup.path = true → sup.info = some info →
        info.modTime > st'.lastModified →
        walk w vars st' (sup :: rest) = walk w vars { st' with lastModified := 0 } rest) ∧
      (∀ (w : World) (st' : WalkState) (sup : Entry) (info : FileInfo) (rest : List Entry),
        isSupport w sup.path = true → sup.info = some info →
        info.modTime > st'.lastModified →
        (∀ e ∈ rest, e.err = none → e.info ≠ none) →
        (∀ e ∈ rest, e.err ≠ none → ∀ i, e.info = some i → i.isDir = true) →
        (∀ e ∈ rest, isSupport w e.path = true → e.info ≠ none) →
        (∀ e ∈ rest, isBuiltAfterReset w e = true →
          (build w e.path none vars).res = .ret none) →
        (∃ st2, (walk w vars st' (sup :: rest)).res = .ret (st2, none)) ∧
          builds (walk w vars st' (sup :: rest)).events
            = (rest.filter (isBuiltAfterReset w)).map (fun e => e.path)) ∧
      builds (buildAllLoop vars true st [t1, t2]).events
        = builds (tick t1.world vars st t1.entries).events
          ++ (t2.entries.filter (isNewerFile t1.now)).map (fun e => e.path) := by
  have hreset : ∀ (w : World) (st' : WalkState) (sup : Entry) (info : FileInfo)
      (rest : List Entry), isSupport w sup.path = true → sup.info = some info →
      info.modTime > st'.lastModified →
      walk w vars st' (sup :: rest) = walk w vars { st' with lastModified := 0 } rest := by
    intro w st' sup info rest hs hi hn
    rw [walk_cons, walkFn_reset w vars st' sup info hs hi hn]
    simp only [Run.bind, List.nil_append]
  refine ⟨hreset, ?_, ?_⟩
  · intro w st' sup info rest hs hi hn hwf' herr' hsup' hbuild'
    rw [hreset w st' sup info rest hs hi hn]
    obtain ⟨st2, h2, _, h3⟩ := walk_builds_epoch w vars rest
      { st' with lastModified := 0 } rfl hwf' herr' hsup' hbuild'
    exact ⟨⟨st2, h2⟩, h3⟩
  · have hloop : buildAllLoop vars true st [t1, t2]
        = Run.bind (tick t1.world vars st t1.entries) (fun r =>
            if (!true) = true then pure r.2
            else buildAllLoop vars true { r.1 with lastModified := t1.now } [t2]) := rfl
    rw [hloop]
    simp only [Run.bind, h1, builds_append, Bool.not_true, Bool.false_eq_true, ↓reduceIte]
    rw [buildAllLoop_last_tick_events]
    obtain ⟨st', _, _, hb⟩ := walk_builds t2.world vars t2.entries
      ⟨t1.now, r1.1.modified⟩ hwf herr hsup hbuild
    congr 1
    rw [tick_builds]
    exact hb

theorem watermark_reset_lasts_one_walk_witness :
    (tick worldRawOnly [] ⟨100, false⟩
        [⟨['.'], some ⟨true, 1⟩, none⟩, fileEntry ".zsignore".toList 150,
          fileEntry "a.txt".toList 50]).res = .ret (⟨0, false⟩, none) ∧
      ((∃ st2, (walk worldRawOnly [] ⟨100, false⟩
            (fileEntry ".zsignore".toList 150 ::
              [fileEntry ".zs/x.txt".toList 50, fileEntry "a.txt".toList 50,
                fileEntry "old.txt".toList 0])).res = .ret (st2, none)) ∧
        builds (walk worldRawOnly [] ⟨100, false⟩
            (fileEntry ".zsignore".toList 150 ::
              [fileEntry ".zs/x.txt".toList 50, fileEntry "a.txt".toList 50,
                fileEntry "old.txt".toList 0])).events
          = ([fileEntry ".zs/x.txt".toList 50, fileEntry "a.txt".toList 50,
              fileEntry "old.txt".toList 0].filter (isBuiltAfterReset worldRawOnly)).map
              (fun e => e.path)) ∧
      ([fileEntry ".zs/x.txt".toList 50, fileEntry "a.txt".toList 50,
          fileEntry "old.txt".toList 0].filter (isBuiltAfterReset worldRawOnly)).map
          (fun e => e.path) = ["a.txt".toList] ∧
      builds (buildAllLoop [] true ⟨100, false⟩
          [⟨worldRawOnly, [⟨['.'], some ⟨true, 1⟩, none⟩, fileEntry ".zsignore".toList 150,
              fileEntry "a.txt".toList 50], 200⟩,
           ⟨worldRawOnly, [⟨['.'], some ⟨true, 1⟩, none⟩, fileEntry ".zsignore".toList 150,
              fileEntry "a.txt".toList 50], 300⟩]).events
        = builds (tick worldRawOnly [] ⟨100, false⟩
            [⟨['.'], some ⟨true, 1⟩, none⟩, fileEntry ".zsignore".toList 150,
              fileEntry "a.txt".toList 50]).events
          ++ ([⟨['.'], some ⟨true, 1⟩, none⟩, fileEntry ".zsignore".toList 150,
              fileEntry "a.txt".toList 50].filter (isNewerFile 200)).map (fun e => e.path) :=
  have hthm := watermark_reset_lasts_one_walk [] ⟨100, false⟩
      ⟨worldRawOnly, [⟨['.'], some ⟨true, 1⟩, none⟩, fileEntry ".zsignore".toList 150,
        fileEntry "a.txt".toList 50], 200⟩
      ⟨worldRawOnly, [⟨['.'], some ⟨true, 1⟩, none⟩, fileEntry ".zsignore".toList 150,
        fileEntry "a.txt".toList 50], 300⟩
      (⟨0, false⟩, none) (by decide) (by decide)
      (by
        intro e he herr
        simp only [List.mem_cons, List.mem_singleton, List.not_mem_nil, or_false] at he
        rcases he with h | h | h <;> rw [h] at herr <;> exact absurd rfl herr)
      (by
        intro e he hs
        simp only [List.mem_cons, List.mem_singleton, List.not_mem_nil, or_false] at he
        rcases he with h | h | h
        · rw [h] at hs; exact absurd hs (by decide)
        · rw [h]; exact ⟨⟨false, 150⟩, rfl, by decide⟩
        · rw [h] at hs; exact absurd hs (by decide))
      (by decide)
  ⟨by decide,
    hthm.2.1 worldRawOnly ⟨100, false⟩ (fileEntry ".zsignore".toList 150) ⟨false, 150⟩
      [fileEntry ".zs/x.txt".toList 50, fileEntry "a.txt".toList 50,
        fileEntry "old.txt".toList 0]
      (by decide) (by decide) (by decide) (by decide)
      (by
        intro e he herr
        simp only [List.mem_cons, List.mem_singleton, List.not_mem_nil, or_false] at he
        rcases he with h | h | h <;> rw [h] at herr <;> exact absurd rfl herr)
      (by decide) (by decide),
    by decide,
    hthm.2.2⟩

/-- C12 as stated fails. The watch loop runs three ticks over a tree with
`.zsignore` (modified at 150) and `a.txt` (modified at 50): the walk of the
second tick (watermark 100) resets the watermark and builds `a.txt` in that
same walk; the walk of the third tick, the next one, starts from the watermark
200 and builds nothing, although `a.txt` is a file entry. -/
theorem next_walk_after_reset_builds_nothing :
    walkFn worldRawOnly [] ⟨100, false⟩ (fileEntry ".zsignore".toList 150)
        = ⟨[], .ret (⟨0, false⟩, none)⟩ ∧
      builds (buildAll [] true
          [⟨worldRawOnly, [], 100⟩,
           ⟨worldRawOnly, [⟨['.'], some ⟨true, 1⟩, none⟩, fileEntry ".zsignore".toList 150,
              fileEntry "a.txt".toList 50], 200⟩]).events = ["a.txt".toList] ∧
      builds (buildAll [] true
          [⟨worldRawOnly, [], 100⟩,
           ⟨worldRawOnly, [⟨['.'], some ⟨true, 1⟩, none⟩, fileEntry ".zsignore".toList 150,
              fileEntry "a.txt".toList 50], 200⟩,
           ⟨worldRawOnly, [⟨['.'], some ⟨true, 1⟩, none⟩, fileEntry ".zsignore".toList 150,
              fileEntry "a.txt".toList 50], 300⟩]).events = ["a.txt".toList] ∧
      builds (tick worldRawOnly [] ⟨200, false⟩
          [⟨['.'], some ⟨true, 1⟩, none⟩, fileEntry ".zsignore".toList 150,
            fileEntry "a.txt".toList 50]).events = [] := by
  refine ⟨by decide, by decide, by decide, by decide⟩

/-! ## The `render` loop ends -/

theorem index_bound (sep : Str) : ∀ (s : Str) (j : Nat),
    index s sep = some j → j + sep.length ≤ s.length := by
  intro s
  induction s with
  | nil =>
    intro j h
    unfold index at h
    split at h
    · rename_i hp
      have hnil : sep = [] := by
        cases sep with
        | nil => rfl
        | cons a t => simp [List.isPrefixOf] at hp
      injection h with h
      rw [hnil, ← h]
      simp
    · exact absurd h (by simp)
  | cons c t ih =>
    intro j h
    unfold index at h
    split at h
    · rename_i hp
      injection h with h
      have hle := (List.isPrefixOf_iff_prefix.mp hp).length_le
      rw [← h]
      simpa using hle
    · cases ht : index t sep with
      | none => rw [ht] at h; exact absurd h (by simp)
      | some j' =>
        rw [ht] at h
        simp only [Option.map_some', Option.some.injEq] at h
        have := ih j' ht
        rw [← h]
        simp only [List.length_cons]
        omega

theorem slice_to_zero (s : Str) (lo : Nat) (cmd : Str) (h : slice s lo 0 = some cmd) :
    cmd = [] := by
  unfold slice at h
  split at h
  · injection h with h
    rw [← h]
    simp
  · exact absurd h (by simp)

theorem rest_shorter (w : World) (s : Str) (i j : Nat) (cmd m0 : Str) (margs : List Str)
    (hj : index s w.closingDelim = some j)
    (hs : slice s (i + w.openingDelim.length) j = some cmd)
    (hf : fields (trimSpace cmd) = m0 :: margs) :
    (s.drop (j + w.closingDelim.length)).length < s.length := by
  have hb := index_bound w.closingDelim s j hj
  have hjpos : 0 < j := by
    rcases Nat.eq_zero_or_pos j with h0 | hpos
    · rw [h0] at hs
      have hc := slice_to_zero s _ cmd hs
      rw [hc] at hf
      have hnil : fields (trimSpace []) = [] := by decide
      rw [hnil] at hf
      exact absurd hf (by simp)
    · exact hpos
  rw [List.length_drop]
  omega

theorem renderLoop_fuel (w : World) (vars : Vars) :
    ∀ (n m : Nat) (s out : Str), s.length < n → s.length < m →
      renderLoop w vars n s out = renderLoop w vars m s out := by
  intro n
  induction n with
  | zero =>
    intro m s out hn
    exact absurd hn (Nat.not_lt_zero _)
  | succ n ih =>
    intro m s out hn hm
    cases m with
    | zero => exact absurd hm (Nat.not_lt_zero _)
    | succ m =>
      cases hi : index s w.openingDelim with
      | none => simp only [renderLoop, hi]
      | some i =>
        cases hj : index s w.closingDelim with
        | none => simp only [renderLoop, hi, hj]
        | some j =>
          cases hs : slice s (i + w.openingDelim.length) j with
          | none => simp only [renderLoop, hi, hj, hs]
          | some cmd =>
            cases hf : fields (trimSpace cmd) with
            | nil => simp only [renderLoop, hi, hj, hs, hf]
            | cons m0 margs =>
              have hlt := rest_shorter w s i j cmd m0 margs hj hs hf
              have ih' : ∀ o, renderLoop w vars n (s.drop (j + w.closingDelim.length)) o
                  = renderLoop w vars m (s.drop (j + w.closingDelim.length)) o :=
                fun o => ih m _ o (by omega) (by omega)
              simp only [renderLoop, hi, hj, hs, hf, ih']

theorem renderLoop_total (w : World) (vars : Vars) :
    ∀ (n : Nat) (s out : Str), s.length < n →
      (renderLoop w vars n s out).res ≠ .outOfFuel := by
  intro n
  induction n with
  | zero =>
    intro s out hn
    exact absurd hn (Nat.not_lt_zero _)
  | succ n ih =>
    intro s out hn
    cases hi : index s w.openingDelim with
    | none =>
      simp only [renderLoop, hi, pure]
      exact fun h => by cases h
    | some i =>
      cases hj : index s w.closingDelim with
      | none =>
        simp only [renderLoop, hi, hj, bind, Run.bind, emit, pure]
        exact fun h => by cases h
      | some j =>
        cases hs : slice s (i + w.openingDelim.length) j with
        | none =>
          simp only [renderLoop, hi, hj, hs, goPanic]
          exact fun h => by cases h
        | some cmd =>
          cases hf : fields (trimSpace cmd) with
          | nil =>
            simp only [renderLoop, hi, hj, hs, hf, goPanic]
            exact fun h => by cases h
          | cons m0 margs =>
            have hlt := rest_shorter w s i j cmd m0 margs hj hs hf
            have ih' : ∀ o, (renderLoop w vars n
                (s.drop (j + w.closingDelim.length)) o).res ≠ .outOfFuel :=
              fun o => ih _ o (by omega)
            simp only [renderLoop, hi, hj, hs, hf]
            split
            · exact ih' _
            · simp only [bind, Run.bind, emit]
              split
              · obtain ⟨r, hr⟩ := run_returns w vars m0 margs
                simp only [hr]
                split
                · exact ih' _
                · exact ih' _
              · split
                · exact ih' _
                · exact ih' _

/-- The loop bound of `render` is never reached: `render` returns or panics. -/
theorem render_total (w : World) (s : Str) (vars : Vars) :
    (render w s vars).res ≠ .outOfFuel :=
  renderLoop_total w vars _ s [] (Nat.lt_succ_self _)

/-! ## The buffer of the `render` loop -/

theorem renderLoop_prefix (w : World) (vars : Vars) :
    ∀ (n : Nat) (s o1 o t : Str) (e : Option GoError),
      (renderLoop w vars n s o1).res = .ret (t, e) →
      abortEvent ∉ (renderLoop w vars n s o1).events →
      (renderLoop w vars n s (o ++ o1)).events = (renderLoop w vars n s o1).events ∧
        (renderLoop w vars n s (o ++ o1)).res = .ret (o ++ t, e) ∧ e = none := by
  intro n
  induction n with
  | zero =>
    intro s o1 o t e hres _
    simp only [renderLoop] at hres
    cases hres
  | succ n ih =>
    intro s o1 o t e hres hab
    cases hi : index s w.openingDelim with
    | none =>
      simp only [renderLoop, hi, pure] at hres ⊢
      injection hres with hres
      injection hres with h1 h2
      refine ⟨trivial, ?_, h2.symm⟩
      rw [← h1, ← h2, List.append_assoc]
    | some i =>
      cases hj : index s w.closingDelim with
      | none =>
        simp only [renderLoop, hi, hj, bind, Run.bind, emit, pure, List.append_nil,
          List.mem_singleton] at hab
        exact absurd rfl hab
      | some j =>
        cases hs : slice s (i + w.openingDelim.length) j with
        | none =>
          simp only [renderLoop, hi, hj, hs, goPanic] at hres
          cases hres
        | some cmd =>
          cases hf : fields (trimSpace cmd) with
          | nil =>
            simp only [renderLoop, hi, hj, hs, hf, goPanic] at hres
            cases hres
          | cons m0 margs =>
            have key : ∀ a : Str,
                (renderLoop w vars n (s.drop (j + w.closingDelim.length)) (o1 ++ a)).res
                  = .ret (t, e) →
                abortEvent ∉ (renderLoop w vars n (s.drop (j + w.closingDelim.length))
                  (o1 ++ a)).events →
                (renderLoop w vars n (s.drop (j + w.closingDelim.length))
                    (o ++ o1 ++ a)).events
                  = (renderLoop w vars n (s.drop (j + w.closingDelim.length))
                    (o1 ++ a)).events ∧
                (renderLoop w vars n (s.drop (j + w.closingDelim.length))
                    (o ++ o1 ++ a)).res = .ret (o ++ t, e) ∧ e = none := by
              intro a h1 h2
              rw [List.append_assoc]
              exact ih _ (o1 ++ a) o t e h1 h2
            simp only [renderLoop, hi, hj, hs, hf] at hres hab ⊢
            cases hv : (if margs = [] then Vars.get vars m0 else none) with
            | some v =>
              simp only [hv, List.append_assoc] at hres hab ⊢
              have := key (s.take i ++ v) hres hab
              simpa only [List.append_assoc] using this
            | none =>
              simp only [hv, bind, Run.bind, emit, List.singleton_append, List.mem_cons,
                not_or] at hres hab ⊢
              cases hl : w.lookPath m0 with
              | false =>
                simp only [hl, Bool.false_eq_true, ↓reduceIte] at hres hab ⊢
                cases hp : w.production with
                | false =>
                  simp only [hp, Bool.not_false, ↓reduceIte, List.append_assoc] at hres hab ⊢
                  have := key (s.take i ++ (m0 ++ ": plugin or variable not found".toList))
                    hres hab.2
                  simp only [List.append_assoc] at this
                  exact ⟨by rw [this.1], this.2.1, this.2.2⟩
                | true =>
                  simp only [hp, Bool.not_true, Bool.false_eq_true, ↓reduceIte] at hres hab ⊢
                  have := key (s.take i) hres hab.2
                  simp only [List.append_assoc] at this ⊢
                  exact ⟨by rw [this.1], this.2.1, this.2.2⟩
              | true =>
                obtain ⟨r, hr⟩ := run_returns w vars m0 margs
                simp only [hl, ↓reduceIte, hr, List.mem_append, not_or] at hres hab ⊢
                cases hr2 : r.2 with
                | none =>
                  simp only [hr2, List.append_assoc] at hres hab ⊢
                  have := key (s.take i ++ r.1) hres hab.2.2
                  simp only [List.append_assoc] at this
                  exact ⟨by rw [this.1], this.2.1, this.2.2⟩
                | some err =>
                  simp only [hr2, List.singleton_append, List.mem_cons, not_or] at hres hab ⊢
                  have := key (s.take i) hres hab.2.2.2
                  simp only [List.append_assoc] at this ⊢
                  exact ⟨by rw [this.1], this.2.1, this.2.2⟩

/-! ## A failing plugin -/

theorem run_failing (w : World) (vars : Vars) (cmd : Str) (args : List Str) (err : GoError)
    (hpart : w.readFile (w.filepathJoin w.ZSDIR (cmd ++ ".html".toList)) = none)
    (hfail : (w.command cmd args (pluginEnv w vars)).err = some err) :
    run w vars cmd args
      = ⟨[.exec cmd args (pluginEnv w vars),
          .log "error running command: %s".toList [cmd],
          .log (w.command cmd args (pluginEnv w vars)).stderr []],
          .ret ([], some err)⟩ := by
  unfold pluginEnv at hfail
  unfold run pluginEnv
  simp only [hpart, hfail]
  rfl

/-- C16: let the first macro of the body be a plugin call (not a bare variable
name) whose command is on the search path, has no partial, and fails when run.
Then `render` logs the failure, substitutes the empty string and goes on with
the rest of the body: when the expansion of the rest does not stop on a missing
closing delimiter and returns the text `t`, `render` returns the text before the
macro followed by `t`, with no error, and its events are the lookup, the run
and the three log lines followed by those of the rest. -/
theorem render_failing_plugin (w : World) (vars : Vars) (s : Str) (i j : Nat)
    (cmd m0 : Str) (margs : List Str) (err : GoError) (t : Str) (e : Option GoError)
    (hi : index s w.openingDelim = some i) (hj : index s w.closingDelim = some j)
    (hs : slice s (i + w.openingDelim.length) j = some cmd)
    (hf : fields (trimSpace cmd) = m0 :: margs)
    (hvar : margs ≠ [] ∨ Vars.get vars m0 = none)
    (hexe : w.lookPath m0 = true)
    (hpart : w.readFile (w.filepathJoin w.ZSDIR (m0 ++ ".html".toList)) = none)
    (hfail : (w.command m0 margs (pluginEnv w vars)).err = some err)
    (hrest : (render w (s.drop (j + w.closingDelim.length)) vars).res = .ret (t, e))
    (hnormal : abortEvent ∉ (render w (s.drop (j + w.closingDelim.length)) vars).events) :
    render w s vars
      = ⟨[.lookPath m0, .exec m0 margs (pluginEnv w vars),
          .log "error running command: %s".toList [m0],
          .log (w.command m0 margs (pluginEnv w vars)).stderr [],
          .log "%e: error running command: %s".toList [err, m0]]
          ++ (render w (s.drop (j + w.closingDelim.length)) vars).events,
          .ret (s.take i ++ t, none)⟩ := by
  have hv : (if margs = [] then Vars.get vars m0 else none) = none := by
    rcases hvar with h | h
    · rw [if_neg h]
    · split
      · exact h
      · rfl
  have hlt := rest_shorter w s i j cmd m0 margs hj hs hf
  have hfuel : ∀ o, renderLoop w vars s.length (s.drop (j + w.closingDelim.length)) o
      = renderLoop w vars ((s.drop (j + w.closingDelim.length)).length + 1)
          (s.drop (j + w.closingDelim.length)) o :=
    fun o => renderLoop_fuel w vars _ _ _ o hlt (Nat.lt_succ_self _)
  unfold render at hrest hnormal
  obtain ⟨hev, hres, he⟩ := renderLoop_prefix w vars _ _ [] (s.take i) t e hrest hnormal
  subst he
  have hstep : render w s vars
      = Run.bind (emit (.lookPath m0)) (fun _ =>
          Run.bind (run w vars m0 margs) (fun _ =>
            Run.bind (emit (.log "%e: error running command: %s".toList [err, m0]))
              (fun _ => renderLoop w vars s.length (s.drop (j + w.closingDelim.length))
                ([] ++ s.take i)))) := by
    unfold render
    simp only [renderLoop, hi, hj, hs, hf, hv, hexe, ↓reduceIte, bind, Run.bind,
      run_failing w vars m0 margs err hpart hfail]
  rw [hstep, run_failing w vars m0 margs err hpart hfail, hfuel]
  simp only [List.nil_append, List.append_nil] at hev hres ⊢
  simp only [Run.bind, emit, hres, hev, List.singleton_append, List.cons_append,
    List.nil_append]
  rfl

theorem render_failing_plugin_witness :
    render (worldWithFailingPlugin "date".toList)
        "a \x7b\x7b date +%Y \x7d\x7d b \x7b\x7b name \x7d\x7d".toList
        [("name".toList, "X".toList)]
      = ⟨[.lookPath "date".toList,
          .exec "date".toList ["+%Y".toList]
            (pluginEnv (worldWithFailingPlugin "date".toList) [("name".toList, "X".toList)]),
          .log "error running command: %s".toList ["date".toList],
          .log ((worldWithFailingPlugin "date".toList).command "date".toList ["+%Y".toList]
            (pluginEnv (worldWithFailingPlugin "date".toList)
              [("name".toList, "X".toList)])).stderr [],
          .log "%e: error running command: %s".toList ["exit status 1".toList, "date".toList]]
          ++ (render (worldWithFailingPlugin "date".toList)
            ("a \x7b\x7b date +%Y \x7d\x7d b \x7b\x7b name \x7d\x7d".toList.drop
              (14 + (worldWithFailingPlugin "date".toList).closingDelim.length))
            [("name".toList, "X".toList)]).events,
          .ret ("a \x7b\x7b date +%Y \x7d\x7d b \x7b\x7b name \x7d\x7d".toList.take 2
            ++ " b X".toList, none)⟩ :=
  render_failing_plugin (worldWithFailingPlugin "date".toList) [("name".toList, "X".toList)]
    "a \x7b\x7b date +%Y \x7d\x7d b \x7b\x7b name \x7d\x7d".toList 2 14 " date +%Y ".toList
    "date".toList ["+%Y".toList] "exit status 1".toList " b X".toList none
    (by decide) (by decide) (by decide) (by decide) (by decide) (by decide) (by decide)
    (by decide) (by decide) (by decide)

/-! ## Tokens that hold a closing delimiter, and an unterminated rest -/

/-- C8 as stated fails: `x}}y` is a single word, not a key of `vars` and not an
executable, but in the body `{{ x}}y }}` the first closing delimiter lies inside
it: the token read is `x`, the output outside production mode is
`x: plugin or variable not foundy }}`, which does not contain `x}}y`, and in
production mode it is `y }}`, not the empty string. -/
theorem render_unknown_token_with_closing_delimiter :
    "x\x7d\x7dy".toList ≠ [] ∧ (∀ c ∈ "x\x7d\x7dy".toList, isSpace c = false) ∧
      Vars.get ([] : Vars) "x\x7d\x7dy".toList = none ∧
      world0.lookPath "x\x7d\x7dy".toList = false ∧
      render world0 (world0.openingDelim ++ [' '] ++ "x\x7d\x7dy".toList ++ [' ']
          ++ world0.closingDelim) []
        = ⟨[.lookPath "x".toList],
            .ret ("x: plugin or variable not foundy \x7d\x7d".toList, none)⟩ ∧
      ¬ ("x\x7d\x7dy".toList <:+: "x: plugin or variable not foundy \x7d\x7d".toList) ∧
      render worldProduction (worldProduction.openingDelim ++ [' '] ++ "x\x7d\x7dy".toList
          ++ [' '] ++ worldProduction.closingDelim) []
        = ⟨[.lookPath "x".toList], .ret ("y \x7d\x7d".toList, none)⟩ ∧
      "y \x7d\x7d".toList ≠ [] := by
  refine ⟨by decide, by decide, by decide, by decide, by decide, by decide, by decide,
    by decide⟩

/-- C16 as stated fails: in `a {{ date }} b {{ open` the plugin `date` fails and the
rest ` b {{ open` has no closing delimiter; `render` of the rest returns the
empty text, so the claim predicts `a `, but `render` of the whole body gives up
and returns the empty text. -/
theorem render_failing_plugin_before_unterminated_macro :
    (worldWithFailingPlugin "date".toList).lookPath "date".toList = true ∧
      ((worldWithFailingPlugin "date".toList).command "date".toList []
        (pluginEnv (worldWithFailingPlugin "date".toList) [])).err
        = some "exit status 1".toList ∧
      (render (worldWithFailingPlugin "date".toList) " b \x7b\x7b open".toList []).res
        = .ret ([], none) ∧
      render (worldWithFailingPlugin "date".toList)
          "a \x7b\x7b date \x7d\x7d b \x7b\x7b open".toList []
        = ⟨[.lookPath "date".toList,
            .exec "date".toList [] (pluginEnv (worldWithFailingPlugin "date".toList) []),
            .log "error running command: %s".toList ["date".toList],
            .log "oops".toList [],
            .log "%e: error running command: %s".toList
              ["exit status 1".toList, "date".toList],
            abortEvent],
            .ret ([], none)⟩ ∧
      (render (worldWithFailingPlugin "date".toList)
          "a \x7b\x7b date \x7d\x7d b \x7b\x7b open".toList []).res
        ≠ .ret ("a ".toList ++ [] ++ [], none) := by
  refine ⟨by decide, by decide, by decide, by decide, by decide⟩

end Zs
